import Mathlib

/-!
Shallow embedding of the real-time chat server (`src/server.js`).

The server keeps four process-wide mutable registries:
  * `users`        : Map socketId -> { id, username, joinedAt }
  * `userRooms`    : Map socketId -> roomId  (the "current room" pointer)
  * `rooms`        : Map roomId  -> room record (with a `users` Set of socket ids)
  * `messageHistory` : plain object roomId -> array of messages

JavaScript `Map`s and plain objects preserve insertion order; `set` on an
existing key updates the value in place, otherwise appends.  We model all of
them as association lists with exactly those semantics.  A JS `Set` of socket
ids is modelled as a duplicate-free, insertion-ordered list.  Timestamps
(`Date` values) and the socket.io transport layer (event emission) are not
modelled: no claim concerns them; where a handler's observable behaviour is an
emitted error or message, the handler returns it explicitly.  Non-deterministic
values (`Date.now() + Math.random()` message ids, `generateRoomKey()` outputs)
are passed in as oracle parameters.
-/

/-- Association-list lookup with JS `Map.get` / object-index semantics:
first entry with the key wins (keys are unique in a real map). -/
def lookupA {α : Type} : List (String × α) → String → Option α
  | [], _ => none
  | p :: rest, k => if p.1 == k then some p.2 else lookupA rest k

/-- Association-list update with JS `Map.set` semantics: replace in place if
the key is present, otherwise append at the end. -/
def setA {α : Type} : List (String × α) → String → α → List (String × α)
  | [], k, v => [(k, v)]
  | p :: rest, k, v => if p.1 == k then (k, v) :: rest else p :: setA rest k v

/-- Association-list deletion (`Map.delete` / `delete obj[k]`). -/
def eraseA {α : Type} (m : List (String × α)) (k : String) : List (String × α) :=
  m.filter (fun p => p.1 != k)

/-- JS `Set.add`: append if absent, no-op if present. -/
def addElem (l : List String) (x : String) : List String :=
  if l.contains x then l else l ++ [x]

/-- JS `Set.delete`: remove the element. -/
def delElem (l : List String) (x : String) : List String :=
  l.filter (fun y => y != x)

/-- JS `string.trim()`: strip leading and trailing whitespace.  (Lean core's
`String.trim` is byte-position-based and does not reduce in the kernel; this
structural version has the same meaning.) -/
def jsTrim (s : String) : String :=
  String.mk (((s.data.dropWhile Char.isWhitespace).reverse.dropWhile Char.isWhitespace).reverse)

/-- JS `string.substring(0, n)`: the first `n` character units. -/
def jsSubstring (s : String) (n : Nat) : String :=
  String.mk (s.data.take n)

/-- JS `string.toLowerCase()` (Lean core's `String.toLower` is
byte-position-based and does not reduce in the kernel; this structural
version has the same meaning). -/
def jsToLower (s : String) : String :=
  String.mk (s.data.map Char.toLower)

/-- JS `string.startsWith(pre)` (structural version of `String.startsWith`,
which is byte-position-based and does not reduce in the kernel). -/
def jsStartsWith (s pre : String) : Bool :=
  pre.data.isPrefixOf s.data

/-- Helper for `collapseWs`: the flag records whether the previous character
was part of a whitespace run already replaced by a hyphen. -/
def collapseWsAux : Bool → List Char → List Char
  | _, [] => []
  | prevWs, c :: rest =>
    if c.isWhitespace then
      if prevWs then collapseWsAux true rest
      else '-' :: collapseWsAux true rest
    else c :: collapseWsAux false rest

/-- Replace every maximal run of whitespace by a single hyphen:
JS `.replace(/\s+/g, "-")`. -/
def collapseWs (l : List Char) : List Char :=
  collapseWsAux false l

/-- `name.toLowerCase().replace(/\s+/g, "-")` — the room-id slug used by the
create-room handler (server.js line 482) and the `/join` command (line 280). -/
def slugify (s : String) : String :=
  String.mk (collapseWs (jsToLower s).data)

/-- A registered user (`userData` built in the `user join` handler,
server.js lines 361-365; `joinedAt` is a timestamp and is not modelled). -/
structure User where
  id : String
  username : String
  deriving DecidableEq, Repr

/-- A room record (server.js lines 71-87 and 488-496).  `rtype` is the JS
`type` field; `key` is `null` for public rooms.  `created` is a timestamp and
is not modelled. -/
structure Room where
  id : String
  name : String
  rtype : String
  key : Option String
  creator : String
  users : List String
  deriving DecidableEq, Repr

/-- A history entry (`messageData` records, server.js lines 414-422 and
571-579).  `kind` is the JS `type` field; `message` holds the body for
public messages and the attachment reference for file messages.
`timestamp` is not modelled. -/
structure Message where
  id : Nat
  kind : String
  user : String
  message : String
  room : String
  reactions : Option (List (String × List String))
  deriving DecidableEq, Repr

/-- The process-wide mutable state (server.js lines 63-67). -/
structure ServerState where
  users : List User
  userRooms : List (String × String)
  rooms : List (String × Room)
  messageHistory : List (String × List Message)
  deriving DecidableEq, Repr

/-- `users.get(socketId)` where `users` is keyed by `user.id`. -/
def findUser (l : List User) (sid : String) : Option User :=
  l.find? (fun u => u.id == sid)

/-- `users.set(socketId, userData)` (Map semantics on the `id` key:
replace in place, else append). -/
def setUser : List User → User → List User
  | [], u => [u]
  | v :: rest, u => if v.id == u.id then u :: rest else v :: setUser rest u

/-- The seeded `general` room (server.js lines 71-78; it has no `key` field,
i.e. `key = undefined`, modelled as `none`). -/
def generalRoom : Room :=
  { id := "general", name := "General Chat", rtype := "public", key := none,
    creator := "System", users := [] }

/-- The seeded `random` room (server.js lines 80-87). -/
def randomRoom : Room :=
  { id := "random", name := "Random Talk", rtype := "public", key := none,
    creator := "System", users := [] }

/-- Process start state: the two seeded rooms, no users, empty history
(loading a persisted snapshot is not modelled; absence of one yields exactly
this state). -/
def initialState : ServerState :=
  { users := [], userRooms := [], rooms := [("general", generalRoom), ("random", randomRoom)],
    messageHistory := [] }

/-- `leaveRoom(socket, roomId)` (server.js lines 189-212), state part: removes
the socket from the room's member set; if the room became empty and is not a
seeded default, deletes the room and its history.  Note that it does NOT clear
the socket's `userRooms` pointer. -/
def leaveRoom (sid roomId : String) (s : ServerState) : ServerState :=
  match findUser s.users sid, lookupA s.rooms roomId with
  | some _, some room =>
    let roomA := { room with users := delElem room.users sid }
    if roomA.users.length == 0 && roomId != "general" && roomId != "random" then
      { s with rooms := eraseA s.rooms roomId,
               messageHistory := eraseA s.messageHistory roomId }
    else
      { s with rooms := setA s.rooms roomId roomA }
  | _, _ => s

/-- The "leave current room" step at the top of `joinRoom` (server.js lines
152-157): if the socket's pointer names a registered room, leave it first. -/
def leaveCurrent (sid : String) (s : ServerState) : ServerState :=
  match lookupA s.userRooms sid with
  | some cur => if (lookupA s.rooms cur).isSome then leaveRoom sid cur s else s
  | none => s

/-- `joinRoom(socket, roomId)` (server.js lines 147-187), state part.  The
source captures `room = rooms.get(roomId)` BEFORE leaving the current room;
if the user re-joins the room they are the sole member of, `leaveRoom` deletes
it from the registry and the subsequent `room.users.add(socket.id)` mutates an
orphaned object — invisible to the registry.  We reproduce that by re-reading
the registry after the leave: the add is applied only if the room is still
registered. -/
def joinRoom (sid roomId : String) (s : ServerState) : ServerState :=
  match findUser s.users sid, lookupA s.rooms roomId with
  | some _, some _ =>
    let s1 := leaveCurrent sid s
    let s2 := { s1 with userRooms := setA s1.userRooms sid roomId }
    match lookupA s2.rooms roomId with
    | some r => { s2 with rooms := setA s2.rooms roomId { r with users := addElem r.users sid } }
    | none => s2
  | _, _ => s

/-- Result of a message-bearing handler: the observable emission alongside the
state change. -/
inductive CmdAction where
  | silent
  | sysMessage (text : String)
  | errorMsg (text : String)
  | createRoomReq (name rtype : String)
  | joinRoomReq (roomId : String) (key : Option String)
  | leaveRoomReq
  | roomInfoReq (roomId : String)
  | pmReq (toUserId : String) (body : String)
  deriving DecidableEq, Repr

/-- `getUserList()` (server.js lines 113-119), restricted to usernames (the
only part the command interpreter reads). -/
def getUserNames (usersL : List User) : List String :=
  usersL.map (fun u => u.username)

/-- One line of the `/rooms` listing (server.js lines 252-259). -/
def roomLine (room : Room) : String :=
  room.name ++ " (" ++ toString room.users.length ++ " users) " ++
    (if room.rtype == "private" then "🔒" else "🔓")

/-- The `/help` text (server.js lines 221-231). -/
def helpText : String :=
  String.intercalate "\n"
    ["Available commands:",
     "/help - Show this help",
     "/users - List online users",
     "/rooms - List all rooms",
     "/create [name] [public|private] - Create room",
     "/join [room] [key] - Join room",
     "/leave - Leave current room",
     "/info - Room information",
     "/pm [user] [message] - Private message"]

/-- The `switch` body of `handleCommand` (server.js lines 219-326), acting on
the already-split argument vector `args = message.slice(1).split(" ")`. -/
def handleArgs (args : List String) (usersL : List User) (roomsL : List (String × Room))
    (currentRoom : Option String) : CmdAction :=
  let command := jsToLower (args.headD "")
  if command == "help" then .sysMessage helpText
  else if command == "users" then
    let userList := String.intercalate ", " (getUserNames usersL)
    .sysMessage ("Online users: " ++ userList ++ " (" ++ toString usersL.length ++ " total)")
  else if command == "rooms" then
    let roomList := String.intercalate "\n" (roomsL.map (fun p => roomLine p.2))
    .sysMessage ("Available rooms:\n" ++ roomList)
  else if command == "create" then
    if (args.getD 1 "") != "" then
      let roomName := args.getD 1 ""
      let roomType := if args.getD 2 "" == "private" then "private" else "public"
      .createRoomReq roomName roomType
    else .errorMsg "Usage: /create [room-name] [public|private]"
  else if command == "join" then
    if (args.getD 1 "") != "" then
      let roomName := slugify (args.getD 1 "")
      .joinRoomReq roomName (args.get? 2)
    else .errorMsg "Usage: /join [room-name] [key]"
  else if command == "leave" then .leaveRoomReq
  else if command == "info" then
    match currentRoom with
    | some r => .roomInfoReq r
    | none => .silent
  else if command == "pm" then
    if args.length >= 3 then
      let targetUsername := args.getD 1 ""
      let pmMessage := String.intercalate " " (args.drop 2)
      match usersL.find? (fun u => jsToLower u.username == jsToLower targetUsername) with
      | some targetUser => .pmReq targetUser.id pmMessage
      | none => .errorMsg ("User '" ++ targetUsername ++ "' not found")
    else .errorMsg "Usage: /pm [username] [message]"
  else .errorMsg ("Unknown command: " ++ command ++ ". Type /help for available commands.")

/-- `handleCommand(socket, message, user)` (server.js lines 215-327): split the
slash-stripped message on single spaces and dispatch. -/
def handleCommand (message : String) (usersL : List User) (roomsL : List (String × Room))
    (currentRoom : Option String) : CmdAction :=
  handleArgs ((message.drop 1).splitOn " ") usersL roomsL currentRoom

/-- The `user join` handler (server.js lines 355-379), state part plus the
advisory error.  `!username || username.trim().length === 0` rejects; otherwise
the trimmed, 20-character-capped name is stored and the socket joins
`general`. -/
def userJoin (sid username : String) (s : ServerState) : ServerState × Option String :=
  if username == "" || (jsTrim username).length == 0 then
    (s, some "Invalid username")
  else
    let userData : User := { id := sid, username := jsSubstring (jsTrim username) 20 }
    let s1 := { s with users := setUser s.users userData }
    (joinRoom sid "general" s1, none)

/-- The `disconnect` handler (server.js lines 381-393). -/
def disconnect (sid : String) (s : ServerState) : ServerState :=
  match findUser s.users sid with
  | some _ =>
    let s1 :=
      match lookupA s.userRooms sid with
      | some cur => leaveRoom sid cur s
      | none => s
    { s1 with users := s1.users.filter (fun u => u.id != sid),
              userRooms := eraseA s1.userRooms sid }
  | none => s

/-- Outcome of the `chat message` handler. -/
inductive ChatResult where
  | err (text : String)
  | silent
  | command (a : CmdAction)
  | broadcast (m : Message)
  deriving DecidableEq, Repr

/-- Push a message onto a room's history (the bare `messageHistory[room].push`,
no bound enforcement — used verbatim by the file handler, lines 582-585). -/
def pushHistory (roomId : String) (msg : Message) (s : ServerState) : ServerState :=
  let h := (lookupA s.messageHistory roomId).getD []
  { s with messageHistory := setA s.messageHistory roomId (h ++ [msg]) }

/-- The `chat message` handler (server.js lines 395-437).  The history trim
`if (length > 100) slice(-100)` (lines 430-432) lives only here.  `mid` is the
oracle for `Date.now() + Math.random()`. -/
def chatMessage (sid text : String) (mid : Nat) (s : ServerState) : ServerState × ChatResult :=
  match findUser s.users sid with
  | none => (s, .err "Please join first")
  | some user =>
    if text == "" || (jsTrim text).length == 0 then (s, .silent)
    else
      let message := jsSubstring (jsTrim text) 500
      if jsStartsWith message "/" then
        (s, .command (handleCommand message s.users s.rooms (lookupA s.userRooms sid)))
      else
        match lookupA s.userRooms sid with
        | none => (s, .silent)
        | some currentRoom =>
          if (lookupA s.rooms currentRoom).isNone then (s, .silent)
          else
            let messageData : Message :=
              { id := mid, kind := "public", user := user.username, message := message,
                room := currentRoom, reactions := none }
            let s1 := pushHistory currentRoom messageData s
            let h1 := (lookupA s1.messageHistory currentRoom).getD []
            let h2 := if h1.length > 100 then h1.drop (h1.length - 100) else h1
            ({ s1 with messageHistory := setA s1.messageHistory currentRoom h2 },
             .broadcast messageData)

/-- Outcome of the `private message` handler (never persisted). -/
inductive PmResult where
  | silent
  | err (text : String)
  | delivered (m : Message)
  deriving DecidableEq, Repr

/-- The `private message` handler (server.js lines 439-468).  It never touches
the state; `room` is unused for private messages and left `""`. -/
def privateMessage (sid toUserId text : String) (mid : Nat) (s : ServerState) : PmResult :=
  match findUser s.users sid with
  | none => .silent
  | some fromUser =>
    if toUserId == "" || text == "" then .err "Invalid private message"
    else
      match findUser s.users toUserId with
      | none => .err "User not found"
      | some _ =>
        let message := jsSubstring (jsTrim text) 500
        .delivered { id := mid, kind := "private", user := fromUser.username,
                     message := message, room := "", reactions := none }

/-- The `create room` handler (server.js lines 470-510).  `suffixOracle` and
`keyOracle` stand for the two potential `generateRoomKey()` calls (line 485
and line 492). -/
def createRoom (sid nameRaw rtypeRaw suffixOracle keyOracle : String) (s : ServerState) :
    ServerState × Option String :=
  match findUser s.users sid with
  | none => (s, none)
  | some user =>
    let roomName := jsSubstring (jsTrim nameRaw) 20
    let roomType := if rtypeRaw == "" then "public" else rtypeRaw
    if roomName == "" then (s, some "Room name cannot be empty")
    else
      let slug := slugify roomName
      let roomId := if (lookupA s.rooms slug).isSome then slug ++ "-" ++ suffixOracle else slug
      let roomData : Room :=
        { id := roomId, name := roomName, rtype := roomType,
          key := if roomType == "private" then some keyOracle else none,
          creator := user.username, users := [] }
      let s1 := { s with rooms := setA s.rooms roomId roomData }
      (joinRoom sid roomId s1, none)

/-- The `join room` handler (server.js lines 512-532). -/
def joinRoomH (sid roomId : String) (key : Option String) (s : ServerState) :
    ServerState × Option String :=
  match findUser s.users sid with
  | none => (s, none)
  | some _ =>
    match lookupA s.rooms roomId with
    | none => (s, some "Room not found")
    | some room =>
      if room.rtype == "private" && room.key != key then (s, some "Invalid room key")
      else (joinRoom sid roomId s, none)

/-- The `leave room` handler (server.js lines 534-543). -/
def leaveRoomH (sid : String) (s : ServerState) : ServerState :=
  match findUser s.users sid with
  | none => s
  | some _ =>
    match lookupA s.userRooms sid with
    | some currentRoom =>
      if currentRoom != "general" then joinRoom sid "general" (leaveRoom sid currentRoom s)
      else s
    | none => s

/-- The `file message` handler (server.js lines 564-589): pushes to history
with NO bound enforcement.  `fileRef` abstracts the `data.file` attachment
record. -/
def fileMessage (sid fileRef : String) (mid : Nat) (s : ServerState) : ServerState :=
  match findUser s.users sid, lookupA s.userRooms sid with
  | some user, some currentRoom =>
    let messageData : Message :=
      { id := mid, kind := "file", user := user.username, message := fileRef,
        room := currentRoom, reactions := none }
    pushHistory currentRoom messageData s
  | _, _ => s

/-- Remove the first occurrence (`indexOf` + `splice(i, 1)`). -/
def removeFirst (l : List String) (x : String) : List String :=
  l.erase x

/-- The reaction-toggle core on a reactions object (server.js lines 601-617):
create the emoji entry if missing, then remove the username if present
(dropping the entry when emptied) or append it. -/
def toggleR (reactions0 : List (String × List String)) (emoji username : String) :
    List (String × List String) :=
  let reactions1 :=
    if (lookupA reactions0 emoji).isSome then reactions0 else reactions0 ++ [(emoji, [])]
  let lst := (lookupA reactions1 emoji).getD []
  if lst.contains username then
    let lstA := removeFirst lst username
    if lstA.length == 0 then eraseA reactions1 emoji
    else setA reactions1 emoji lstA
  else
    setA reactions1 emoji (lst ++ [username])

/-- The reaction toggle applied to one message: the JS code creates
`message.reactions = {}` when absent and then mutates it in place, so the
message always ends with a reactions object holding the toggled content. -/
def applyReaction (m : Message) (emoji username : String) : Message :=
  { m with reactions := some (toggleR (m.reactions.getD []) emoji username) }

/-- Update the first list element satisfying `p` (JS `array.find` returns a
reference to the first match, which is then mutated in place). -/
def updateFirst {α : Type} (p : α → Bool) (f : α → α) : List α → List α
  | [] => []
  | x :: xs => if p x then f x :: xs else x :: updateFirst p f xs

/-- The `message reaction` handler (server.js lines 591-627). -/
def messageReaction (sid : String) (messageId : Nat) (emoji roomId : String) (s : ServerState) :
    ServerState :=
  match findUser s.users sid with
  | none => s
  | some user =>
    match lookupA s.messageHistory roomId with
    | none => s
    | some msgs =>
      if msgs.any (fun m => m.id == messageId) then
        let msgs1 := updateFirst (fun m => m.id == messageId)
          (fun m => applyReaction m emoji user.username) msgs
        { s with messageHistory := setA s.messageHistory roomId msgs1 }
      else s

/-- One inbound socket event (the inputs of the handlers above). -/
inductive Event where
  | userJoin (sid username : String)
  | disconnect (sid : String)
  | chatMessage (sid text : String) (mid : Nat)
  | privateMessage (sid toUserId text : String) (mid : Nat)
  | createRoom (sid name rtype suffixOracle keyOracle : String)
  | joinRoom (sid roomId : String) (key : Option String)
  | leaveRoom (sid : String)
  | fileMessage (sid fileRef : String) (mid : Nat)
  | messageReaction (sid : String) (messageId : Nat) (emoji roomId : String)
  deriving DecidableEq, Repr

/-- The state transition of one inbound event. -/
def step (e : Event) (s : ServerState) : ServerState :=
  match e with
  | .userJoin sid username => (userJoin sid username s).1
  | .disconnect sid => disconnect sid s
  | .chatMessage sid text mid => (chatMessage sid text mid s).1
  | .privateMessage _ _ _ _ => s
  | .createRoom sid name rtype suf key => (createRoom sid name rtype suf key s).1
  | .joinRoom sid roomId key => (joinRoomH sid roomId key s).1
  | .leaveRoom sid => leaveRoomH sid s
  | .fileMessage sid fileRef mid => fileMessage sid fileRef mid s
  | .messageReaction sid messageId emoji roomId => messageReaction sid messageId emoji roomId s

/-- Run a sequence of inbound events. -/
def run (es : List Event) (s : ServerState) : ServerState :=
  es.foldl (fun acc e => step e acc) s

/-- C1 exhibit: a history of exactly 100 public messages. -/
def hundredMessages : List Message :=
  (List.range 100).map (fun i =>
    { id := i, kind := "public", user := "alice", message := "m", room := "general",
      reactions := none })

/-- C1 exhibit: alice identified and in `general`, whose history already holds
100 entries (reachable by 100 accepted public chat messages). -/
def filledState : ServerState :=
  { users := [{ id := "A", username := "alice" }],
    userRooms := [("A", "general")],
    rooms := [("general", { generalRoom with users := ["A"] }), ("random", randomRoom)],
    messageHistory := [("general", hundredMessages)] }

/-- Well-formedness the server maintains for a reactions object: emoji keys
are distinct (it is a JS object), and every entry holds a duplicate-free,
non-empty username list (users are added only when absent and entries are
deleted when emptied). -/
def ReactWF (r : List (String × List String)) : Prop :=
  (r.map Prod.fst).Nodup ∧ ∀ p ∈ r, p.2 ≠ [] ∧ p.2.Nodup

/-- Forward membership/pointer consistency: if a registered room's member set
contains a connection identifier, then that connection's current-room pointer
names the room. -/
def MembershipPointer (s : ServerState) : Prop :=
  ∀ r room, lookupA s.rooms r = some room → ∀ c ∈ room.users, lookupA s.userRooms c = some r

/-- The reachable-state invariant: `general` is registered, every identified
connection has a current-room pointer, and membership implies pointer. -/
def Invariant (s : ServerState) : Prop :=
  (lookupA s.rooms "general").isSome = true ∧
  (∀ u ∈ s.users, (lookupA s.userRooms u.id).isSome = true) ∧
  MembershipPointer s

/-! ### Association-list lemmas -/

theorem lookupA_setA_self {α : Type} (m : List (String × α)) (k : String) (v : α) :
    lookupA (setA m k v) k = some v := by
  induction m with
  | nil => simp [setA, lookupA]
  | cons p rest ih =>
    by_cases h : p.1 = k
    · simp [setA, lookupA, h]
    · simp [setA, lookupA, h, ih]

theorem lookupA_setA_ne {α : Type} (m : List (String × α)) {k ka : String} (v : α)
    (h : ka ≠ k) : lookupA (setA m k v) ka = lookupA m ka := by
  have hka : ¬ k = ka := fun hh => h hh.symm
  induction m with
  | nil => simp [setA, lookupA, hka]
  | cons p rest ih =>
    by_cases hp : p.1 = k
    · have hpa : ¬ p.1 = ka := by rw [hp]; exact hka
      simp [setA, lookupA, hp, hka, hpa]
    · by_cases hpk : p.1 = ka
      · simp [setA, lookupA, hp, hpk, hka, h]
      · simp [setA, lookupA, hp, hpk, ih]

theorem lookupA_eraseA_self {α : Type} (m : List (String × α)) (k : String) :
    lookupA (eraseA m k) k = none := by
  induction m with
  | nil => simp [eraseA, lookupA]
  | cons p rest ih =>
    by_cases h : p.1 = k
    · simpa [eraseA, List.filter_cons, h] using ih
    · simpa [eraseA, List.filter_cons, h, lookupA] using ih

theorem lookupA_eraseA_ne {α : Type} (m : List (String × α)) {k ka : String}
    (h : ka ≠ k) : lookupA (eraseA m k) ka = lookupA m ka := by
  have hka : ¬ k = ka := fun hh => h hh.symm
  induction m with
  | nil => simp [eraseA, lookupA]
  | cons p rest ih =>
    by_cases hp : p.1 = k
    · have hpa : ¬ p.1 = ka := by rw [hp]; exact hka
      simpa [eraseA, List.filter_cons, lookupA, hp, hpa, hka] using ih
    · by_cases hpk : p.1 = ka
      · simp [eraseA, List.filter_cons, lookupA, hp, hpk, hka, h]
      · simpa [eraseA, List.filter_cons, lookupA, hp, hpk] using ih

theorem eraseA_of_absent {α : Type} (m : List (String × α)) (k : String)
    (h : lookupA m k = none) : eraseA m k = m := by
  induction m with
  | nil => simp [eraseA]
  | cons p rest ih =>
    by_cases hp : p.1 = k
    · simp [lookupA, hp] at h
    · simp only [lookupA, beq_iff_eq, hp, if_false] at h
      have hne : (p.1 != k) = true := by simp [hp]
      unfold eraseA
      rw [List.filter_cons, hne]
      have h2 := ih h
      unfold eraseA at h2
      simp [h2]

theorem setA_of_absent {α : Type} (m : List (String × α)) (k : String) (v : α)
    (h : lookupA m k = none) : setA m k v = m ++ [(k, v)] := by
  induction m with
  | nil => simp [setA]
  | cons p rest ih =>
    by_cases hp : p.1 = k
    · simp [lookupA, hp] at h
    · simp only [lookupA, beq_iff_eq, hp, if_false] at h
      simp [setA, hp, ih h]

theorem lookupA_append_of_none {α : Type} {m1 : List (String × α)} (m2 : List (String × α))
    {k : String} (h : lookupA m1 k = none) : lookupA (m1 ++ m2) k = lookupA m2 k := by
  induction m1 with
  | nil => simp
  | cons p rest ih =>
    by_cases hp : p.1 = k
    · simp [lookupA, hp] at h
    · simp only [lookupA, beq_iff_eq, hp, if_false] at h
      simp [lookupA, hp, ih h]

theorem lookupA_append_of_some {α : Type} {m1 : List (String × α)} (m2 : List (String × α))
    {k : String} {v : α} (h : lookupA m1 k = some v) : lookupA (m1 ++ m2) k = some v := by
  induction m1 with
  | nil => simp [lookupA] at h
  | cons p rest ih =>
    by_cases hp : p.1 = k
    · simp only [lookupA, beq_iff_eq, hp, if_true] at h
      simp [lookupA, hp, h]
    · simp only [lookupA, beq_iff_eq, hp, if_false] at h
      simp [lookupA, hp, ih h]

/-! ### Frame lemmas for the operations -/

theorem leaveRoom_users (sid r : String) (s : ServerState) :
    (leaveRoom sid r s).users = s.users := by
  unfold leaveRoom
  cases findUser s.users sid <;> cases lookupA s.rooms r <;> try rfl
  dsimp only
  split <;> rfl

theorem leaveRoom_userRooms (sid r : String) (s : ServerState) :
    (leaveRoom sid r s).userRooms = s.userRooms := by
  unfold leaveRoom
  cases findUser s.users sid <;> cases lookupA s.rooms r <;> try rfl
  dsimp only
  split <;> rfl

theorem leaveCurrent_users (sid : String) (s : ServerState) :
    (leaveCurrent sid s).users = s.users := by
  unfold leaveCurrent
  cases lookupA s.userRooms sid
  · rfl
  · dsimp only
    split
    · exact leaveRoom_users _ _ _
    · rfl

theorem leaveCurrent_userRooms (sid : String) (s : ServerState) :
    (leaveCurrent sid s).userRooms = s.userRooms := by
  unfold leaveCurrent
  cases lookupA s.userRooms sid
  · rfl
  · dsimp only
    split
    · exact leaveRoom_userRooms _ _ _
    · rfl

theorem joinRoom_users (sid r : String) (s : ServerState) :
    (joinRoom sid r s).users = s.users := by
  unfold joinRoom
  cases findUser s.users sid <;> cases lookupA s.rooms r <;> try rfl
  dsimp only
  split <;> simp [leaveCurrent_users]

theorem findUser_setUser_self (l : List User) (u : User) :
    findUser (setUser l u) u.id = some u := by
  induction l with
  | nil => simp [setUser, findUser]
  | cons v rest ih =>
    by_cases h : v.id = u.id
    · simp [setUser, findUser, h]
    · simp only [setUser, beq_iff_eq, h, if_false, findUser]
      rw [List.find?_cons_of_neg _ (by simp [h])]
      exact ih

theorem jsSubstring_length_le (s : String) (n : Nat) : (jsSubstring s n).length ≤ n := by
  show (String.mk (s.data.take n)).length ≤ n
  show (s.data.take n).length ≤ n
  simp

theorem string_length_eq_zero {s : String} : s.length = 0 ↔ s = "" := by
  constructor
  · intro h
    cases s with
    | mk data =>
      have : data.length = 0 := h
      have hd : data = [] := List.length_eq_zero.mp this
      subst hd
      rfl
  · intro h
    subst h
    rfl

/-! ### Claim theorems -/

/-- C2: for every connection and join-room request, if the target room is
private and the supplied key does not equal the stored key, the handler
returns the advisory "Invalid room key" error and the state — member sets,
current-room pointers, all rooms — is completely unchanged. -/
theorem c2_private_room_wrong_key_rejected (s : ServerState) (sid roomId : String)
    (key : Option String) (u : User) (room : Room)
    (hu : findUser s.users sid = some u)
    (hr : lookupA s.rooms roomId = some room)
    (hpriv : room.rtype = "private")
    (hkey : room.key ≠ key) :
    joinRoomH sid roomId key s = (s, some "Invalid room key") := by
  unfold joinRoomH
  rw [hu, hr]
  simp [hpriv, hkey]

/-- C4: `user join` (identify) rejects with "Invalid username" exactly when the
trimmed raw username is empty; when it is non-empty, no error is emitted —
regardless of any duplicate usernames already registered — and the stored
username is the trimmed input truncated to 20 characters. -/
theorem c4_identify_rejects_iff_trim_empty (s : ServerState) (sid username : String) :
    ((userJoin sid username s).2 = some "Invalid username" ↔ jsTrim username = "") ∧
    (jsTrim username ≠ "" →
      (userJoin sid username s).2 = none ∧
      findUser (userJoin sid username s).1.users sid =
        some { id := sid, username := jsSubstring (jsTrim username) 20 }) := by
  have hcond : (username == "" || (jsTrim username).length == 0) = true ↔ jsTrim username = "" := by
    constructor
    · intro h
      have h2 : username = "" ∨ (jsTrim username).length = 0 := by simpa using h
      rcases h2 with h1 | h1
      · subst h1
        rfl
      · exact string_length_eq_zero.mp h1
    · intro h
      have hlen : (jsTrim username).length = 0 := by simp [h]
      simp [hlen]
  constructor
  · constructor
    · intro h
      by_cases hc : (username == "" || (jsTrim username).length == 0) = true
      · exact hcond.mp hc
      · exfalso
        unfold userJoin at h
        rw [if_neg hc] at h
        simp at h
    · intro h
      unfold userJoin
      rw [if_pos (hcond.mpr h)]
  · intro h
    have hc : ¬ (username == "" || (jsTrim username).length == 0) = true := by
      intro hcc
      exact h (hcond.mp hcc)
    constructor
    · unfold userJoin
      rw [if_neg hc]
    · unfold userJoin
      rw [if_neg hc]
      dsimp only
      rw [joinRoom_users]
      exact findUser_setUser_self s.users _

/-- C5: a leave by a room's last member deletes the room and purges its
history when the room is not a seeded default; when the room is `general` or
`random`, it stays registered with an empty member set and its history is
untouched. -/
theorem c5_last_member_leave_room_lifecycle (s : ServerState) (sid roomId : String)
    (u : User) (room : Room)
    (hu : findUser s.users sid = some u)
    (hr : lookupA s.rooms roomId = some room)
    (hlast : room.users = [sid]) :
    ((roomId ≠ "general" → roomId ≠ "random" →
       lookupA (leaveRoom sid roomId s).rooms roomId = none ∧
       lookupA (leaveRoom sid roomId s).messageHistory roomId = none) ∧
     (roomId = "general" ∨ roomId = "random" →
       lookupA (leaveRoom sid roomId s).rooms roomId = some { room with users := [] } ∧
       (leaveRoom sid roomId s).messageHistory = s.messageHistory)) := by
  have hdel : delElem room.users sid = [] := by
    rw [hlast]
    simp [delElem]
  constructor
  · intro hg hrand
    unfold leaveRoom
    rw [hu, hr]
    dsimp only
    rw [hdel]
    rw [if_pos (by simp [hg, hrand])]
    exact ⟨lookupA_eraseA_self _ _, lookupA_eraseA_self _ _⟩
  · intro hdef
    unfold leaveRoom
    rw [hu, hr]
    dsimp only
    rw [hdel]
    rw [if_neg (by rcases hdef with h | h <;> simp [h])]
    exact ⟨lookupA_setA_self _ _ _, rfl⟩

theorem c2_witness :
    joinRoomH "B" "secret" (some "WRONG")
        (run [Event.userJoin "A" "alice",
              Event.createRoom "A" "secret" "private" "SUF" "KEY123",
              Event.userJoin "B" "bob"] initialState) =
      (run [Event.userJoin "A" "alice",
            Event.createRoom "A" "secret" "private" "SUF" "KEY123",
            Event.userJoin "B" "bob"] initialState, some "Invalid room key") :=
  c2_private_room_wrong_key_rejected _ "B" "secret" (some "WRONG")
    { id := "B", username := "bob" }
    { id := "secret", name := "secret", rtype := "private", key := some "KEY123",
      creator := "alice", users := ["A"] }
    (by rfl) (by rfl) rfl (by decide)

theorem c4_witness :
    (userJoin "A" "  alice  " initialState).2 = none ∧
    findUser (userJoin "A" "  alice  " initialState).1.users "A" =
      some { id := "A", username := jsSubstring (jsTrim "  alice  ") 20 } :=
  (c4_identify_rejects_iff_trim_empty initialState "A" "  alice  ").2 (by decide)

theorem c5_witness :
    lookupA (leaveRoom "A" "myroom"
        (run [Event.userJoin "A" "alice",
              Event.createRoom "A" "myroom" "public" "S" "K"] initialState)).rooms "myroom" =
      none ∧
    lookupA (leaveRoom "A" "myroom"
        (run [Event.userJoin "A" "alice",
              Event.createRoom "A" "myroom" "public" "S" "K"] initialState)).messageHistory
        "myroom" = none :=
  (c5_last_member_leave_room_lifecycle _ "A" "myroom"
    { id := "A", username := "alice" }
    { id := "myroom", name := "myroom", rtype := "public", key := none,
      creator := "alice", users := ["A"] }
    (by rfl) (by rfl) rfl).1 (by decide) (by decide)

/-- The newest entry survives the chat handler's history bound: after
`push` and `slice(-100)`, the just-appended message is still present. -/
theorem mem_after_bound (h : List Message) (msg : Message) :
    msg ∈ (if (h ++ [msg]).length > 100 then
             (h ++ [msg]).drop ((h ++ [msg]).length - 100)
           else (h ++ [msg])) := by
  split
  · have hle : (h ++ [msg]).length - 100 ≤ h.length := by
      simp only [List.length_append, List.length_singleton]
      omega
    rw [List.drop_append_of_le_length hle]
    simp
  · simp

/-- C1: the claim fails for file messages.  The `file message` handler pushes
to a room history that already holds 100 entries WITHOUT the 100-entry trim:
the 101st persisted entry leaves a history of length 101 and the oldest of the
101 is still present (as the head), where the claim requires length 100 with
the oldest absent.  (The bound `slice(-100)` exists only in the `chat message`
handler, server.js lines 430-432; the file handler, lines 581-586, omits
it.) -/
theorem c1_file_append_overflows_history_bound :
    hundredMessages.length = 100 ∧
    ((lookupA (fileMessage "A" "photo.png" 1000 filledState).messageHistory "general").getD
        []).length = 101 ∧
    ((lookupA (fileMessage "A" "photo.png" 1000 filledState).messageHistory "general").getD
        []).head? =
      some { id := 0, kind := "public", user := "alice", message := "m", room := "general",
             reactions := none } := by
  refine ⟨by decide, by decide, by decide⟩

/-- C9: every chat message accepted for room broadcast and every private
message accepted for delivery carries — and, for chat messages, stores in the
room history — a body equal to the raw input trimmed and truncated to 500
characters, hence never longer than 500. -/
theorem c9_body_trimmed_truncated (s : ServerState) (sid text : String) (mid : Nat)
    (m : Message) :
    ((chatMessage sid text mid s).2 = ChatResult.broadcast m →
       m.message = jsSubstring (jsTrim text) 500 ∧ m.message.length ≤ 500 ∧
       m ∈ (lookupA (chatMessage sid text mid s).1.messageHistory m.room).getD []) ∧
    (∀ toUserId, privateMessage sid toUserId text mid s = PmResult.delivered m →
       m.message = jsSubstring (jsTrim text) 500 ∧ m.message.length ≤ 500) := by
  constructor
  · intro h
    unfold chatMessage at h ⊢
    cases hfu : findUser s.users sid with
    | none => rw [hfu] at h; simp at h
    | some user =>
      rw [hfu] at h
      dsimp only at h ⊢
      by_cases h0 : (text == "" || (jsTrim text).length == 0) = true
      · rw [if_pos h0] at h; simp at h
      · rw [if_neg h0] at h ⊢
        by_cases hsl : jsStartsWith (jsSubstring (jsTrim text) 500) "/" = true
        · rw [if_pos hsl] at h; simp at h
        · rw [if_neg hsl] at h ⊢
          cases hur : lookupA s.userRooms sid with
          | none => rw [hur] at h; simp at h
          | some currentRoom =>
            rw [hur] at h
            dsimp only at h ⊢
            by_cases hnr : (lookupA s.rooms currentRoom).isNone = true
            · rw [if_pos hnr] at h; simp at h
            · rw [if_neg hnr] at h ⊢
              simp only [ChatResult.broadcast.injEq] at h
              subst h
              refine ⟨rfl, jsSubstring_length_le _ _, ?_⟩
              dsimp only [pushHistory]
              rw [lookupA_setA_self, lookupA_setA_self]
              simp only [Option.getD_some]
              exact mem_after_bound _ _
  · intro toUserId h
    unfold privateMessage at h
    cases hfu : findUser s.users sid with
    | none => rw [hfu] at h; simp at h
    | some fromUser =>
      rw [hfu] at h
      dsimp only at h
      by_cases h0 : (toUserId == "" || text == "") = true
      · rw [if_pos h0] at h; simp at h
      · rw [if_neg h0] at h
        cases hft : findUser s.users toUserId with
        | none => rw [hft] at h; simp at h
        | some toUser =>
          rw [hft] at h
          dsimp only at h
          simp only [PmResult.delivered.injEq] at h
          subst h
          exact ⟨rfl, jsSubstring_length_le _ _⟩

theorem c9_witness :
    ({ id := 5, kind := "public", user := "alice",
       message := jsSubstring (jsTrim "  hello  ") 500, room := "general",
       reactions := none } : Message).message.length ≤ 500 ∧
    ({ id := 5, kind := "public", user := "alice",
       message := jsSubstring (jsTrim "  hello  ") 500, room := "general",
       reactions := none } : Message) ∈
      (lookupA (chatMessage "A" "  hello  " 5
          (run [Event.userJoin "A" "alice"] initialState)).1.messageHistory "general").getD [] := by
  have h := (c9_body_trimmed_truncated (run [Event.userJoin "A" "alice"] initialState)
    "A" "  hello  " 5
    { id := 5, kind := "public", user := "alice",
      message := jsSubstring (jsTrim "  hello  ") 500, room := "general",
      reactions := none }).1 (by decide)
  exact ⟨h.2.1, h.2.2⟩

/-- `List.find?` returns the first element satisfying the predicate. -/
theorem find?_first {α : Type} (p : α → Bool) (l : List α) (i : Nat) (hi : i < l.length)
    (hp : p (l.get ⟨i, hi⟩) = true)
    (hmin : ∀ j (hj : j < i), p (l.get ⟨j, Nat.lt_trans hj hi⟩) = false) :
    l.find? p = some (l.get ⟨i, hi⟩) := by
  induction l generalizing i with
  | nil => simp at hi
  | cons a as ih =>
    cases i with
    | zero =>
      simp only [List.get] at hp ⊢
      rw [List.find?_cons_of_pos _ hp]
    | succ n =>
      have ha : p a = false := hmin 0 (Nat.succ_pos n)
      rw [List.find?_cons_of_neg _ (by simp [ha])]
      simp only [List.get] at hp ⊢
      exact ih n (Nat.lt_of_succ_lt_succ hi) hp
        (fun j hj => hmin (j + 1) (Nat.succ_lt_succ hj))

/-- C8: a `/pm target body` command resolves the target by case-insensitive
exact equality against the identified users; when no user matches, the sender
gets a "not found" error carrying the attempted name; when at least one user
matches, the private message request is routed to the FIRST matching user (in
registration order). -/
theorem c8_pm_resolution (usersL : List User) (roomsL : List (String × Room))
    (cur : Option String) (t : String) (rest : List String) (hrest : rest ≠ []) :
    ((∀ u ∈ usersL, jsToLower u.username ≠ jsToLower t) →
       handleArgs ("pm" :: t :: rest) usersL roomsL cur =
         CmdAction.errorMsg ("User '" ++ t ++ "' not found")) ∧
    (∀ i (hi : i < usersL.length),
       jsToLower (usersL.get ⟨i, hi⟩).username = jsToLower t →
       (∀ j (hj : j < i), jsToLower (usersL.get ⟨j, Nat.lt_trans hj hi⟩).username ≠ jsToLower t) →
       handleArgs ("pm" :: t :: rest) usersL roomsL cur =
         CmdAction.pmReq (usersL.get ⟨i, hi⟩).id (String.intercalate " " rest)) := by
  rcases rest with _ | ⟨r, rs⟩
  · exact absurd rfl hrest
  constructor
  · intro hnone
    have hfind : usersL.find? (fun u => jsToLower u.username == jsToLower t) = none := by
      rw [List.find?_eq_none]
      intro u hu
      simp [hnone u hu]
    unfold handleArgs
    have hc : jsToLower "pm" = "pm" := rfl
    dsimp only [List.headD]
    rw [hc]
    simp [hfind]
  · intro i hi hp hmin
    have hfind : usersL.find? (fun u => jsToLower u.username == jsToLower t) =
        some (usersL.get ⟨i, hi⟩) := by
      apply find?_first
      · simpa using hp
      · intro j hj
        simpa using hmin j hj
    unfold handleArgs
    have hc : jsToLower "pm" = "pm" := rfl
    dsimp only [List.headD]
    rw [hc]
    simp [hfind]

theorem c8_witness :
    handleArgs ["pm", "Alice", "hi"]
        [{ id := "1", username := "Bob" }, { id := "2", username := "ALICE" },
         { id := "3", username := "alice" }] [] none =
      CmdAction.pmReq "2" (String.intercalate " " ["hi"]) := by
  refine (c8_pm_resolution
    [{ id := "1", username := "Bob" }, { id := "2", username := "ALICE" },
     { id := "3", username := "alice" }] [] none "Alice" ["hi"] (by decide)).2
    1 (by decide) (by decide) ?_
  intro j hj
  have hj0 : j = 0 := by omega
  subst hj0
  show jsToLower ({ id := "1", username := "Bob" } : User).username ≠ jsToLower "Alice"
  decide

theorem lookupA_mem {α : Type} {m : List (String × α)} {k : String} {v : α}
    (h : lookupA m k = some v) : (k, v) ∈ m := by
  induction m with
  | nil => simp [lookupA] at h
  | cons p rest ih =>
    by_cases hp : p.1 = k
    · simp only [lookupA, beq_iff_eq, hp, if_true, Option.some.injEq] at h
      subst h
      rw [← hp]
      exact List.mem_cons_self _ _
    · simp only [lookupA, beq_iff_eq, hp, if_false] at h
      exact List.mem_cons_of_mem _ (ih h)

theorem lookupA_append_single_ne {α : Type} (x : List (String × α)) (e : String) (w : α)
    {ea : String} (h : ea ≠ e) : lookupA (x ++ [(e, w)]) ea = lookupA x ea := by
  cases hx : lookupA x ea with
  | some v => exact lookupA_append_of_some _ hx
  | none =>
    rw [lookupA_append_of_none _ hx]
    simp only [lookupA]
    rw [if_neg (by simp; exact fun hh => h hh.symm)]

theorem setA_append_single {α : Type} (x : List (String × α)) (e : String) (w y : α)
    (h : lookupA x e = none) : setA (x ++ [(e, w)]) e y = x ++ [(e, y)] := by
  induction x with
  | nil => simp [setA]
  | cons p rest ih =>
    by_cases hp : p.1 = e
    · simp [lookupA, hp] at h
    · simp only [lookupA, beq_iff_eq, hp, if_false] at h
      simp [setA, hp, ih h]

theorem setA_setA {α : Type} (m : List (String × α)) (k : String) (v1 v2 : α) :
    setA (setA m k v1) k v2 = setA m k v2 := by
  induction m with
  | nil => simp [setA]
  | cons p rest ih =>
    by_cases hp : p.1 = k
    · simp [setA, hp]
    · simp [setA, hp, ih]

theorem setA_lookup_self {α : Type} {m : List (String × α)} {k : String} {v : α}
    (h : lookupA m k = some v) : setA m k v = m := by
  induction m with
  | nil => simp [lookupA] at h
  | cons p rest ih =>
    by_cases hp : p.1 = k
    · simp only [lookupA, beq_iff_eq, hp, if_true, Option.some.injEq] at h
      subst h
      simp only [setA, beq_iff_eq, hp, if_true]
      rw [show ((k, p.2) : String × α) = p from Prod.ext hp.symm rfl]
    · simp only [lookupA, beq_iff_eq, hp, if_false] at h
      simp [setA, hp, ih h]

theorem eraseA_append {α : Type} (x y : List (String × α)) (k : String) :
    eraseA (x ++ y) k = eraseA x k ++ eraseA y k := by
  simp [eraseA, List.filter_append]

theorem erase_eq_nil_of_mem {l : List String} {u : String} (hu : u ∈ l)
    (h : l.erase u = []) : l = [u] := by
  cases l with
  | nil => simp at hu
  | cons a rest =>
    by_cases ha : a = u
    · subst ha
      simp only [List.erase_cons_head] at h
      subst h
      rfl
    · rw [List.erase_cons_tail] at h
      · simp at h
      · simp [ha]

theorem toggleR_absent {r : List (String × List String)} {e : String} (u : String)
    (hA : lookupA r e = none) : toggleR r e u = r ++ [(e, [u])] := by
  unfold toggleR
  rw [hA]
  simp only [Option.isSome_none, Bool.false_eq_true, if_false]
  rw [lookupA_append_of_none _ hA]
  simp only [lookupA, beq_self_eq_true, if_true, Option.getD_some, List.contains_nil,
    Bool.false_eq_true, if_false, List.nil_append]
  exact setA_append_single _ _ _ _ hA

theorem toggleR_present_mem_erase_nil {r : List (String × List String)} {e : String}
    {l : List String} {u : String} (hB : lookupA r e = some l) (hu : u ∈ l)
    (hnil : l.erase u = []) : toggleR r e u = eraseA r e := by
  unfold toggleR
  rw [hB]
  simp only [Option.isSome_some, if_true, hB, Option.getD_some]
  rw [if_pos (by simpa using hu)]
  simp only [removeFirst, hnil, List.length_nil]
  rfl

theorem toggleR_present_mem_erase_ne {r : List (String × List String)} {e : String}
    {l : List String} {u : String} (hB : lookupA r e = some l) (hu : u ∈ l)
    (hnil : l.erase u ≠ []) : toggleR r e u = setA r e (l.erase u) := by
  unfold toggleR
  rw [hB]
  simp only [Option.isSome_some, if_true, hB, Option.getD_some]
  rw [if_pos (by simpa using hu)]
  simp only [removeFirst]
  rw [if_neg (by simpa using hnil)]

theorem toggleR_present_not_mem {r : List (String × List String)} {e : String}
    {l : List String} {u : String} (hB : lookupA r e = some l) (hu : u ∉ l) :
    toggleR r e u = setA r e (l ++ [u]) := by
  unfold toggleR
  rw [hB]
  simp only [Option.isSome_some, if_true, hB, Option.getD_some]
  rw [if_neg (by simpa using hu)]

/-- Double-toggle on a well-formed reactions object restores it extensionally:
the same emoji entries exist and each holds the same set of usernames. -/
theorem toggleR_toggleR (r : List (String × List String)) (e u : String) (hwf : ReactWF r) :
    (∀ ea, (lookupA (toggleR (toggleR r e u) e u) ea).isSome = (lookupA r ea).isSome) ∧
    (∀ ea v, v ∈ (lookupA (toggleR (toggleR r e u) e u) ea).getD [] ↔
       v ∈ (lookupA r ea).getD []) := by
  cases hA : lookupA r e with
  | none =>
    have t1 := toggleR_absent u hA
    have hl1 : lookupA (r ++ [(e, [u])]) e = some [u] := by
      rw [lookupA_append_of_none _ hA]
      simp [lookupA]
    have t2 : toggleR (r ++ [(e, [u])]) e u = r := by
      rw [toggleR_present_mem_erase_nil hl1 (by simp) (by simp)]
      rw [eraseA_append, eraseA_of_absent _ _ hA]
      simp [eraseA, List.filter]
    rw [t1, t2]
    exact ⟨fun ea => rfl, fun ea v => Iff.rfl⟩
  | some l =>
    have hmem := lookupA_mem hA
    obtain ⟨hlne, hlnd⟩ := hwf.2 _ hmem
    by_cases hu : u ∈ l
    · by_cases hnil : l.erase u = []
      · have hl : l = [u] := erase_eq_nil_of_mem hu hnil
        have t1 := toggleR_present_mem_erase_nil hA hu hnil
        have hl2 : lookupA (eraseA r e) e = none := lookupA_eraseA_self _ _
        have t2 := toggleR_absent u hl2
        rw [t1, t2]
        constructor
        · intro ea
          by_cases hea : ea = e
          · subst hea
            rw [lookupA_append_of_none _ hl2, hA]
            simp [lookupA]
          · rw [lookupA_append_single_ne _ _ _ hea, lookupA_eraseA_ne _ hea]
        · intro ea v
          by_cases hea : ea = e
          · subst hea
            rw [lookupA_append_of_none _ hl2, hA, hl]
            simp [lookupA]
          · rw [lookupA_append_single_ne _ _ _ hea, lookupA_eraseA_ne _ hea]
      · have t1 := toggleR_present_mem_erase_ne hA hu hnil
        have hl2 : lookupA (setA r e (l.erase u)) e = some (l.erase u) :=
          lookupA_setA_self _ _ _
        have hnm : u ∉ l.erase u := fun hc => (hlnd.mem_erase_iff.mp hc).1 rfl
        have t2 := toggleR_present_not_mem hl2 hnm
        rw [t1, t2, setA_setA]
        constructor
        · intro ea
          by_cases hea : ea = e
          · subst hea
            rw [lookupA_setA_self, hA]
            rfl
          · rw [lookupA_setA_ne _ _ hea]
        · intro ea v
          by_cases hea : ea = e
          · subst hea
            rw [lookupA_setA_self, hA]
            simp only [Option.getD_some]
            constructor
            · intro hv
              rcases List.mem_append.mp hv with hv | hv
              · exact List.mem_of_mem_erase hv
              · have : v = u := by simpa using hv
                subst this
                exact hu
            · intro hv
              by_cases hvu : v = u
              · subst hvu
                exact List.mem_append.mpr (Or.inr (by simp))
              · exact List.mem_append.mpr (Or.inl ((List.mem_erase_of_ne hvu).mpr hv))
          · rw [lookupA_setA_ne _ _ hea]
    · have t1 := toggleR_present_not_mem hA hu
      have hl2 : lookupA (setA r e (l ++ [u])) e = some (l ++ [u]) := lookupA_setA_self _ _ _
      have humem : u ∈ l ++ [u] := List.mem_append.mpr (Or.inr (by simp))
      have herase : (l ++ [u]).erase u = l := by
        rw [List.erase_append_right _ hu]
        simp
      have t2 := toggleR_present_mem_erase_ne hl2 humem (by rw [herase]; exact hlne)
      rw [t1, t2, herase, setA_setA, setA_lookup_self hA]
      exact ⟨fun ea => rfl, fun ea v => Iff.rfl⟩

theorem any_updateFirst {α : Type} (p : α → Bool) (g : α → α) (l : List α)
    (hpres : ∀ x, p x = true → p (g x) = true) :
    (updateFirst p g l).any p = l.any p := by
  induction l with
  | nil => rfl
  | cons x xs ih =>
    cases hx : p x with
    | true =>
      simp [updateFirst, hx, hpres x hx]
    | false =>
      simp [updateFirst, hx, ih]

theorem updateFirst_updateFirst {α : Type} (p : α → Bool) (f g : α → α) (l : List α)
    (hpres : ∀ x, p x = true → p (g x) = true) :
    updateFirst p f (updateFirst p g l) = updateFirst p (fun x => f (g x)) l := by
  induction l with
  | nil => rfl
  | cons x xs ih =>
    cases hx : p x with
    | true => simp [updateFirst, hx, hpres x hx]
    | false => simp [updateFirst, hx, ih]

theorem find?_updateFirst {α : Type} (p : α → Bool) (g : α → α) (l : List α) {x : α}
    (hfind : l.find? p = some x)
    (hpres : ∀ y, p y = true → p (g y) = true) :
    (updateFirst p g l).find? p = some (g x) := by
  induction l with
  | nil => simp at hfind
  | cons a as ih =>
    cases ha : p a with
    | true =>
      rw [List.find?_cons_of_pos _ ha] at hfind
      injection hfind with hx
      subst hx
      simp only [updateFirst, ha, if_true]
      rw [List.find?_cons_of_pos _ (hpres a ha)]
    | false =>
      rw [List.find?_cons_of_neg _ (by simp [ha])] at hfind
      have ih2 := ih hfind
      simp only [updateFirst, ha, Bool.false_eq_true, if_false]
      rw [List.find?_cons_of_neg _ (by simp [ha])]
      exact ih2

theorem messageReaction_unfold (s : ServerState) (sid : String) (messageId : Nat)
    (emoji roomId : String) (user : User) (msgs : List Message)
    (hu : findUser s.users sid = some user)
    (hh : lookupA s.messageHistory roomId = some msgs)
    (hany : msgs.any (fun mm => mm.id == messageId) = true) :
    messageReaction sid messageId emoji roomId s =
      { s with messageHistory := setA s.messageHistory roomId (updateFirst (fun mm => mm.id == messageId) (fun mm => applyReaction mm emoji user.username) msgs) } := by
  unfold messageReaction
  rw [hu]
  dsimp only
  rw [hh]
  dsimp only
  rw [if_pos hany]

/-- C7 (amended): for a message present in a room's history (the first one
with the requested id) whose reactions object is well-formed, applying the
reaction handler twice with the same `(messageId, emoji, username)` restores
the message's reaction state extensionally — the same emoji entries are
present (including absence of an entry that was absent before) and each entry
holds the same set of usernames — and every other field of the message, every
other room's history, and the rest of the state are unchanged.  The literal
list orders may differ (see the counterexample), which is the only deviation
from the claim as stated. -/
theorem c7_double_toggle_extensional (s : ServerState) (sid : String) (messageId : Nat)
    (emoji roomId : String) (user : User) (msgs : List Message) (m : Message)
    (hu : findUser s.users sid = some user)
    (hh : lookupA s.messageHistory roomId = some msgs)
    (hfind : msgs.find? (fun mm => mm.id == messageId) = some m)
    (hwf : ReactWF (m.reactions.getD [])) :
    ∃ msgs2,
      lookupA (messageReaction sid messageId emoji roomId
          (messageReaction sid messageId emoji roomId s)).messageHistory roomId = some msgs2 ∧
      (∃ m2, msgs2.find? (fun mm => mm.id == messageId) = some m2 ∧
        (∀ e, (lookupA (m2.reactions.getD []) e).isSome =
           (lookupA (m.reactions.getD []) e).isSome) ∧
        (∀ e v, v ∈ (lookupA (m2.reactions.getD []) e).getD [] ↔
           v ∈ (lookupA (m.reactions.getD []) e).getD []) ∧
        m2.id = m.id ∧ m2.kind = m.kind ∧ m2.user = m.user ∧
        m2.message = m.message ∧ m2.room = m.room) ∧
      (∀ rid, rid ≠ roomId →
        lookupA (messageReaction sid messageId emoji roomId
            (messageReaction sid messageId emoji roomId s)).messageHistory rid =
          lookupA s.messageHistory rid) ∧
      (messageReaction sid messageId emoji roomId
          (messageReaction sid messageId emoji roomId s)).users = s.users ∧
      (messageReaction sid messageId emoji roomId
          (messageReaction sid messageId emoji roomId s)).userRooms = s.userRooms ∧
      (messageReaction sid messageId emoji roomId
          (messageReaction sid messageId emoji roomId s)).rooms = s.rooms := by
  have hpres : ∀ y : Message, (y.id == messageId) = true →
      ((applyReaction y emoji user.username).id == messageId) = true := fun y hy => hy
  have hpm := List.find?_some hfind
  have hany : msgs.any (fun mm => mm.id == messageId) = true :=
    List.any_eq_true.mpr ⟨m, List.mem_of_find?_eq_some hfind, hpm⟩
  have h1 := messageReaction_unfold s sid messageId emoji roomId user msgs hu hh hany
  have hu1 : findUser (messageReaction sid messageId emoji roomId s).users sid = some user := by
    rw [h1]
    exact hu
  have hh1 : lookupA (messageReaction sid messageId emoji roomId s).messageHistory roomId =
      some (updateFirst (fun mm => mm.id == messageId)
        (fun mm => applyReaction mm emoji user.username) msgs) := by
    rw [h1]
    exact lookupA_setA_self _ _ _
  have hany1 : (updateFirst (fun mm => mm.id == messageId)
      (fun mm => applyReaction mm emoji user.username) msgs).any
        (fun mm => mm.id == messageId) = true := by
    rw [any_updateFirst _ _ msgs hpres]
    exact hany
  have h2 := messageReaction_unfold _ sid messageId emoji roomId user _ hu1 hh1 hany1
  rw [h2, h1]
  dsimp only
  rw [setA_setA]
  refine ⟨_, lookupA_setA_self _ _ _, ?_, ?_, rfl, rfl, rfl⟩
  · refine ⟨applyReaction (applyReaction m emoji user.username) emoji user.username,
      find?_updateFirst _ _ _ (find?_updateFirst _ _ msgs hfind hpres) hpres,
      ?_, ?_, rfl, rfl, rfl, rfl, rfl⟩
    · exact (toggleR_toggleR (m.reactions.getD []) emoji user.username hwf).1
    · exact (toggleR_toggleR (m.reactions.getD []) emoji user.username hwf).2
  · intro rid hrid
    exact lookupA_setA_ne _ _ hrid

/-- C7 counterexample: the claim's "restores the reaction state to exactly
what it was" is false on the code.  After alice and bob both react "like" to
message 1 (state `["alice", "bob"]`), alice toggling twice leaves
`["bob", "alice"]`: the same set, but not the prior state — `splice` removes
alice from the front and `push` re-appends her at the end. -/
theorem c7_double_toggle_counterexample :
    (((lookupA (run [Event.userJoin "A" "alice", Event.userJoin "B" "bob",
          Event.chatMessage "A" "hi" 1,
          Event.messageReaction "A" 1 "like" "general",
          Event.messageReaction "B" 1 "like" "general"] initialState).messageHistory
          "general").getD []).find? (fun mm => mm.id == 1)).map Message.reactions =
      some (some [("like", ["alice", "bob"])]) ∧
    (((lookupA (run [Event.userJoin "A" "alice", Event.userJoin "B" "bob",
          Event.chatMessage "A" "hi" 1,
          Event.messageReaction "A" 1 "like" "general",
          Event.messageReaction "B" 1 "like" "general",
          Event.messageReaction "A" 1 "like" "general",
          Event.messageReaction "A" 1 "like" "general"] initialState).messageHistory
          "general").getD []).find? (fun mm => mm.id == 1)).map Message.reactions =
      some (some [("like", ["bob", "alice"])]) ∧
    (some (some [("like", ["alice", "bob"])]) : Option (Option (List (String × List String)))) ≠
      some (some [("like", ["bob", "alice"])]) := by
  refine ⟨by decide, by decide, by decide⟩

theorem c7_witness :
    ∃ msgs2,
      lookupA (messageReaction "A" 1 "like" "general"
          (messageReaction "A" 1 "like" "general"
            (run [Event.userJoin "A" "alice", Event.userJoin "B" "bob",
              Event.chatMessage "A" "hi" 1,
              Event.messageReaction "A" 1 "like" "general",
              Event.messageReaction "B" 1 "like" "general"] initialState))).messageHistory
          "general" = some msgs2 ∧
      (∃ m2, msgs2.find? (fun mm => mm.id == 1) = some m2 ∧
        (∀ e, (lookupA (m2.reactions.getD []) e).isSome =
           (lookupA [("like", ["alice", "bob"])] e).isSome) ∧
        (∀ e v, v ∈ (lookupA (m2.reactions.getD []) e).getD [] ↔
           v ∈ (lookupA [("like", ["alice", "bob"])] e).getD []) ∧
        m2.id = 1 ∧ m2.kind = "public" ∧ m2.user = "alice" ∧
        m2.message = "hi" ∧ m2.room = "general") ∧
      (∀ rid, rid ≠ "general" →
        lookupA (messageReaction "A" 1 "like" "general"
            (messageReaction "A" 1 "like" "general"
              (run [Event.userJoin "A" "alice", Event.userJoin "B" "bob",
                Event.chatMessage "A" "hi" 1,
                Event.messageReaction "A" 1 "like" "general",
                Event.messageReaction "B" 1 "like" "general"] initialState))).messageHistory
            rid =
          lookupA (run [Event.userJoin "A" "alice", Event.userJoin "B" "bob",
            Event.chatMessage "A" "hi" 1,
            Event.messageReaction "A" 1 "like" "general",
            Event.messageReaction "B" 1 "like" "general"] initialState).messageHistory rid) ∧
      (messageReaction "A" 1 "like" "general"
          (messageReaction "A" 1 "like" "general"
            (run [Event.userJoin "A" "alice", Event.userJoin "B" "bob",
              Event.chatMessage "A" "hi" 1,
              Event.messageReaction "A" 1 "like" "general",
              Event.messageReaction "B" 1 "like" "general"] initialState))).users =
        (run [Event.userJoin "A" "alice", Event.userJoin "B" "bob",
          Event.chatMessage "A" "hi" 1,
          Event.messageReaction "A" 1 "like" "general",
          Event.messageReaction "B" 1 "like" "general"] initialState).users ∧
      (messageReaction "A" 1 "like" "general"
          (messageReaction "A" 1 "like" "general"
            (run [Event.userJoin "A" "alice", Event.userJoin "B" "bob",
              Event.chatMessage "A" "hi" 1,
              Event.messageReaction "A" 1 "like" "general",
              Event.messageReaction "B" 1 "like" "general"] initialState))).userRooms =
        (run [Event.userJoin "A" "alice", Event.userJoin "B" "bob",
          Event.chatMessage "A" "hi" 1,
          Event.messageReaction "A" 1 "like" "general",
          Event.messageReaction "B" 1 "like" "general"] initialState).userRooms ∧
      (messageReaction "A" 1 "like" "general"
          (messageReaction "A" 1 "like" "general"
            (run [Event.userJoin "A" "alice", Event.userJoin "B" "bob",
              Event.chatMessage "A" "hi" 1,
              Event.messageReaction "A" 1 "like" "general",
              Event.messageReaction "B" 1 "like" "general"] initialState))).rooms =
        (run [Event.userJoin "A" "alice", Event.userJoin "B" "bob",
          Event.chatMessage "A" "hi" 1,
          Event.messageReaction "A" 1 "like" "general",
          Event.messageReaction "B" 1 "like" "general"] initialState).rooms :=
  c7_double_toggle_extensional _ "A" 1 "like" "general"
    { id := "A", username := "alice" }
    [{ id := 1, kind := "public", user := "alice", message := "hi",
       room := "general", reactions := some [("like", ["alice", "bob"])] }]
    { id := 1, kind := "public", user := "alice", message := "hi",
      room := "general", reactions := some [("like", ["alice", "bob"])] }
    (by rfl) (by rfl) (by rfl) ⟨by decide, by decide⟩

theorem leaveRoom_rooms_other (sid r rid : String) (s : ServerState) (h : rid ≠ r) :
    lookupA (leaveRoom sid r s).rooms rid = lookupA s.rooms rid := by
  unfold leaveRoom
  cases findUser s.users sid <;> cases lookupA s.rooms r <;> try rfl
  dsimp only
  split
  · exact lookupA_eraseA_ne _ h
  · exact lookupA_setA_ne _ _ h

/-- Joining a registered room the socket's pointer does not already name adds
the socket to that room's member set (and the leave-first step cannot touch
the target room). -/
theorem leaveCurrent_rooms_other (sid rid : String) (s : ServerState)
    (h : ∀ cur, lookupA s.userRooms sid = some cur → rid ≠ cur) :
    lookupA (leaveCurrent sid s).rooms rid = lookupA s.rooms rid := by
  unfold leaveCurrent
  cases hcur : lookupA s.userRooms sid with
  | none => rfl
  | some cur =>
    dsimp only
    split
    · exact leaveRoom_rooms_other sid cur rid s (h cur hcur)
    · rfl

theorem joinRoom_rooms_target (sid roomId : String) (s : ServerState) (u : User) (room : Room)
    (hu : findUser s.users sid = some u)
    (hr : lookupA s.rooms roomId = some room)
    (hnod : lookupA s.userRooms sid ≠ some roomId) :
    lookupA (joinRoom sid roomId s).rooms roomId =
      some { room with users := addElem room.users sid } := by
  have hro : lookupA (leaveCurrent sid s).rooms roomId = some room := by
    rw [leaveCurrent_rooms_other sid roomId s ?h]
    · exact hr
    case h =>
      intro cur hcur hh
      subst hh
      exact hnod hcur
  unfold joinRoom
  rw [hu, hr]
  dsimp only
  rw [hro]
  dsimp only
  exact lookupA_setA_self _ _ _

theorem joinRoom_rooms_untouched (sid roomId rid : String) (s : ServerState)
    (h1 : rid ≠ roomId) (h2 : ∀ cur, lookupA s.userRooms sid = some cur → rid ≠ cur) :
    lookupA (joinRoom sid roomId s).rooms rid = lookupA s.rooms rid := by
  have hro : lookupA (leaveCurrent sid s).rooms rid = lookupA s.rooms rid :=
    leaveCurrent_rooms_other sid rid s h2
  unfold joinRoom
  cases findUser s.users sid <;> cases lookupA s.rooms roomId <;> try rfl
  dsimp only
  split
  · rw [lookupA_setA_ne _ _ h1]
    exact hro
  · exact hro

/-- C6 (amended): a create-room request by an identified user with a non-empty
(trimmed, 20-capped) name registers a room whose id is the slug of the stored
name — lower-cased, whitespace runs replaced by hyphens — or, when that slug
already names a room, the slug with "-" and the generated suffix appended; the
registered room's key is present exactly when its type is private, two rooms
may share a display name, and the creator is its sole member.  Unlike the
claim, id uniqueness is NOT guaranteed by the code: it holds only under the
hypothesis `hfresh` that the (suffixed) id does not collide with an existing
room id — a colliding random suffix silently overwrites the existing room
(see the counterexample).  (`hnod` excludes a creator whose dangling
current-room pointer equals the new id, a corner in which `joinRoom`'s
leave-first step would delete the just-created room.) -/
theorem c6_create_room_id_and_key (s : ServerState) (sid nameRaw rtypeRaw suf key : String)
    (u : User) (roomId roomTypeV : String)
    (hu : findUser s.users sid = some u)
    (hname : jsSubstring (jsTrim nameRaw) 20 ≠ "")
    (hrid : roomId = if (lookupA s.rooms (slugify (jsSubstring (jsTrim nameRaw) 20))).isSome
        then slugify (jsSubstring (jsTrim nameRaw) 20) ++ "-" ++ suf
        else slugify (jsSubstring (jsTrim nameRaw) 20))
    (hty : roomTypeV = if rtypeRaw == "" then "public" else rtypeRaw)
    (hfresh : lookupA s.rooms roomId = none)
    (hnod : lookupA s.userRooms sid ≠ some roomId) :
    lookupA (createRoom sid nameRaw rtypeRaw suf key s).1.rooms roomId =
      some { id := roomId, name := jsSubstring (jsTrim nameRaw) 20, rtype := roomTypeV,
             key := if roomTypeV == "private" then some key else none,
             creator := u.username, users := [sid] } ∧
    (∀ room : Room,
      lookupA (createRoom sid nameRaw rtypeRaw suf key s).1.rooms roomId = some room →
      (room.key.isSome ↔ room.rtype = "private")) ∧
    (∀ rid room0, lookupA s.rooms rid = some room0 →
      (∀ cur, lookupA s.userRooms sid = some cur → rid ≠ cur) →
      lookupA (createRoom sid nameRaw rtypeRaw suf key s).1.rooms rid = some room0) := by
  have main : lookupA (createRoom sid nameRaw rtypeRaw suf key s).1.rooms roomId =
      some { id := roomId, name := jsSubstring (jsTrim nameRaw) 20, rtype := roomTypeV,
             key := if roomTypeV == "private" then some key else none,
             creator := u.username, users := [sid] } := by
    unfold createRoom
    rw [hu]
    dsimp only
    rw [if_neg (by simpa using hname)]
    dsimp only
    rw [← hrid, ← hty]
    have hu1 : findUser ({ s with rooms := setA s.rooms roomId { id := roomId, name := jsSubstring (jsTrim nameRaw) 20, rtype := roomTypeV, key := if roomTypeV == "private" then some key else none, creator := u.username, users := [] } } : ServerState).users sid = some u := hu
    have hr1 := lookupA_setA_self s.rooms roomId
      { id := roomId, name := jsSubstring (jsTrim nameRaw) 20, rtype := roomTypeV,
        key := if roomTypeV == "private" then some key else none,
        creator := u.username, users := ([] : List String) }
    have hnod1 : lookupA ({ s with rooms := setA s.rooms roomId { id := roomId, name := jsSubstring (jsTrim nameRaw) 20, rtype := roomTypeV, key := if roomTypeV == "private" then some key else none, creator := u.username, users := [] } } : ServerState).userRooms sid ≠ some roomId := hnod
    exact joinRoom_rooms_target sid roomId _ u _ hu1 hr1 hnod1
  refine ⟨main, fun room hroom => ?_, fun rid room0 hr0 hcur => ?_⟩
  · rw [main] at hroom
    injection hroom with hroom
    subst hroom
    by_cases hb : roomTypeV = "private" <;> simp [hb]
  · have hne : rid ≠ roomId := by
      intro hh
      subst hh
      rw [hr0] at hfresh
      exact Option.noConfusion hfresh
    unfold createRoom
    rw [hu]
    dsimp only
    rw [if_neg (by simpa using hname)]
    dsimp only
    rw [← hrid, ← hty]
    rw [joinRoom_rooms_untouched sid roomId rid ({ s with rooms := setA s.rooms roomId { id := roomId, name := jsSubstring (jsTrim nameRaw) 20, rtype := roomTypeV, key := if roomTypeV == "private" then some key else none, creator := u.username, users := [] } } : ServerState) hne hcur]
    dsimp only
    rw [lookupA_setA_ne _ _ hne]
    exact hr0

/-- C6 counterexample: the random suffix does not force uniqueness.  With
rooms `x` (carol's) and `x-ABC123` (dave's) registered, erin creating a room
named "x" while the generator yields the suffix "ABC123" produces the id
`x-ABC123` again: dave's room is silently overwritten (creator changes from
dave to erin, the registry does not grow), so the claim's "the id is unique"
is false.  The trace also exhibits two rooms sharing the display name "x". -/
theorem c6_suffix_collision_counterexample :
    (lookupA (run [Event.userJoin "C" "carol", Event.createRoom "C" "x" "public" "S0" "K0",
        Event.userJoin "D" "dave", Event.createRoom "D" "x" "public" "ABC123" "K1",
        Event.userJoin "E" "erin"] initialState).rooms "x-ABC123").map Room.creator =
      some "dave" ∧
    (lookupA (run [Event.userJoin "C" "carol", Event.createRoom "C" "x" "public" "S0" "K0",
        Event.userJoin "D" "dave", Event.createRoom "D" "x" "public" "ABC123" "K1",
        Event.userJoin "E" "erin"] initialState).rooms "x").map Room.name = some "x" ∧
    (lookupA (run [Event.userJoin "C" "carol", Event.createRoom "C" "x" "public" "S0" "K0",
        Event.userJoin "D" "dave", Event.createRoom "D" "x" "public" "ABC123" "K1",
        Event.userJoin "E" "erin"] initialState).rooms "x-ABC123").map Room.name =
      some "x" ∧
    (lookupA (run [Event.userJoin "C" "carol", Event.createRoom "C" "x" "public" "S0" "K0",
        Event.userJoin "D" "dave", Event.createRoom "D" "x" "public" "ABC123" "K1",
        Event.userJoin "E" "erin",
        Event.createRoom "E" "x" "public" "ABC123" "K2"] initialState).rooms
        "x-ABC123").map Room.creator = some "erin" ∧
    (run [Event.userJoin "C" "carol", Event.createRoom "C" "x" "public" "S0" "K0",
        Event.userJoin "D" "dave", Event.createRoom "D" "x" "public" "ABC123" "K1",
        Event.userJoin "E" "erin",
        Event.createRoom "E" "x" "public" "ABC123" "K2"] initialState).rooms.length =
      (run [Event.userJoin "C" "carol", Event.createRoom "C" "x" "public" "S0" "K0",
        Event.userJoin "D" "dave", Event.createRoom "D" "x" "public" "ABC123" "K1",
        Event.userJoin "E" "erin"] initialState).rooms.length := by
  refine ⟨by decide, by decide, by decide, by decide, by decide⟩

theorem c6_witness :
    lookupA (createRoom "E" "My Room" "private" "ZZZZZZ" "KEY999"
        (run [Event.userJoin "E" "erin"] initialState)).1.rooms "my-room" =
      some { id := "my-room", name := jsSubstring (jsTrim "My Room") 20, rtype := "private",
             key := some "KEY999", creator := "erin", users := ["E"] } :=
  (c6_create_room_id_and_key (run [Event.userJoin "E" "erin"] initialState)
    "E" "My Room" "private" "ZZZZZZ" "KEY999"
    { id := "E", username := "erin" } "my-room" "private"
    (by rfl) (by decide) (by decide) (by decide) (by decide) (by decide)).1

theorem mem_addElem {l : List String} {x c : String} (h : c ∈ addElem l x) :
    c ∈ l ∨ c = x := by
  unfold addElem at h
  split at h
  · exact Or.inl h
  · rcases List.mem_append.mp h with h | h
    · exact Or.inl h
    · right
      simpa using h

theorem self_mem_addElem (l : List String) (x : String) : x ∈ addElem l x := by
  unfold addElem
  split
  · rename_i h
    simpa using h
  · simp

theorem mem_delElem {l : List String} {x c : String} (h : c ∈ delElem l x) :
    c ∈ l ∧ c ≠ x := by
  have h2 := List.mem_filter.mp h
  exact ⟨h2.1, by simpa using h2.2⟩

theorem mem_setUser {l : List User} {v u : User} (h : u ∈ setUser l v) : u = v ∨ u ∈ l := by
  induction l with
  | nil => simpa [setUser] using h
  | cons w rest ih =>
    unfold setUser at h
    split at h
    · rcases List.mem_cons.mp h with h | h
      · exact Or.inl h
      · exact Or.inr (List.mem_cons_of_mem _ h)
    · rcases List.mem_cons.mp h with h | h
      · exact Or.inr (h ▸ List.mem_cons_self _ _)
      · rcases ih h with h | h
        · exact Or.inl h
        · exact Or.inr (List.mem_cons_of_mem _ h)

theorem isSome_setA_general {α : Type} (m : List (String × α)) (k : String) (v : α)
    (h : (lookupA m "general").isSome = true) :
    (lookupA (setA m k v) "general").isSome = true := by
  by_cases hg : "general" = k
  · subst hg
    rw [lookupA_setA_self]
    rfl
  · rw [lookupA_setA_ne _ _ hg]
    exact h

theorem leaveRoom_GP (sid r : String) (s : ServerState)
    (h : (lookupA s.rooms "general").isSome = true) :
    (lookupA (leaveRoom sid r s).rooms "general").isSome = true := by
  unfold leaveRoom
  cases findUser s.users sid <;> cases lookupA s.rooms r <;> try exact h
  dsimp only
  split
  · rename_i hcond
    have hg : "general" ≠ r := by
      intro hh
      subst hh
      simp at hcond
    rw [lookupA_eraseA_ne _ hg]
    exact h
  · exact isSome_setA_general _ _ _ h

theorem leaveRoom_MP (sid r : String) (s : ServerState) (h : MembershipPointer s) :
    MembershipPointer (leaveRoom sid r s) := by
  unfold leaveRoom
  cases hfu : findUser s.users sid <;> cases hr : lookupA s.rooms r <;> try exact h
  rename_i room
  dsimp only
  split
  · intro rp roomp hrp c hc
    by_cases hpr : rp = r
    · subst hpr
      rw [lookupA_eraseA_self] at hrp
      exact Option.noConfusion hrp
    · rw [lookupA_eraseA_ne _ hpr] at hrp
      exact h rp roomp hrp c hc
  · intro rp roomp hrp c hc
    by_cases hpr : rp = r
    · subst hpr
      rw [lookupA_setA_self] at hrp
      injection hrp with hrp
      subst hrp
      exact h rp room hr c (mem_delElem hc).1
    · rw [lookupA_setA_ne _ _ hpr] at hrp
      exact h rp roomp hrp c hc

theorem nomem_of_no_pointer (sid : String) (s : ServerState) (hMP : MembershipPointer s)
    (hptr : lookupA s.userRooms sid = none) :
    ∀ rp room, lookupA s.rooms rp = some room → sid ∉ room.users := by
  intro rp room hrp hmem
  have h2 := hMP rp room hrp sid hmem
  rw [hptr] at h2
  exact Option.noConfusion h2

theorem nomem_after_leave (sid cur : String) (s : ServerState) (u : User)
    (hfu : findUser s.users sid = some u) (hMP : MembershipPointer s)
    (hptr : lookupA s.userRooms sid = some cur) :
    ∀ rp room, lookupA (leaveRoom sid cur s).rooms rp = some room → sid ∉ room.users := by
  intro rp room hrp hmem
  by_cases hpr : rp = cur
  · subst hpr
    unfold leaveRoom at hrp
    rw [hfu] at hrp
    cases hcr : lookupA s.rooms rp with
    | none =>
      rw [hcr] at hrp
      dsimp only at hrp
      rw [hcr] at hrp
      exact Option.noConfusion hrp
    | some room0 =>
      rw [hcr] at hrp
      dsimp only at hrp
      split at hrp
      · rw [lookupA_eraseA_self] at hrp
        exact Option.noConfusion hrp
      · rw [lookupA_setA_self] at hrp
        injection hrp with hrp
        subst hrp
        exact (mem_delElem hmem).2 rfl
  · rw [leaveRoom_rooms_other sid cur rp s hpr] at hrp
    have h2 := hMP rp room hrp sid hmem
    rw [hptr] at h2
    injection h2 with h2
    exact hpr h2.symm

theorem leaveCurrent_GP (sid : String) (s : ServerState)
    (h : (lookupA s.rooms "general").isSome = true) :
    (lookupA (leaveCurrent sid s).rooms "general").isSome = true := by
  unfold leaveCurrent
  cases lookupA s.userRooms sid <;> try exact h
  dsimp only
  split
  · exact leaveRoom_GP _ _ _ h
  · exact h

theorem leaveCurrent_MP (sid : String) (s : ServerState) (h : MembershipPointer s) :
    MembershipPointer (leaveCurrent sid s) := by
  unfold leaveCurrent
  cases lookupA s.userRooms sid <;> try exact h
  dsimp only
  split
  · exact leaveRoom_MP _ _ _ h
  · exact h

theorem leaveCurrent_nomem (sid : String) (s : ServerState) (u : User)
    (hfu : findUser s.users sid = some u) (hMP : MembershipPointer s) :
    ∀ rp room, lookupA (leaveCurrent sid s).rooms rp = some room → sid ∉ room.users := by
  unfold leaveCurrent
  cases hptr : lookupA s.userRooms sid with
  | none => exact nomem_of_no_pointer sid s hMP hptr
  | some cur =>
    dsimp only
    split
    · exact nomem_after_leave sid cur s u hfu hMP hptr
    · rename_i hns
      intro rp room hrp hmem
      have h2 := hMP rp room hrp sid hmem
      rw [hptr] at h2
      injection h2 with h2
      subst h2
      rw [hrp] at hns
      simp at hns

theorem joinRoom_guard_fail (sid roomId : String) (s : ServerState)
    (h : findUser s.users sid = none ∨ lookupA s.rooms roomId = none) :
    joinRoom sid roomId s = s := by
  unfold joinRoom
  rcases h with h | h
  · rw [h]
  · cases findUser s.users sid
    · rfl
    · rw [h]

theorem joinRoom_userRooms_self (sid roomId : String) (s : ServerState)
    (hfu : (findUser s.users sid).isSome = true)
    (hr : (lookupA s.rooms roomId).isSome = true) :
    lookupA (joinRoom sid roomId s).userRooms sid = some roomId := by
  obtain ⟨u, hu⟩ : ∃ u, findUser s.users sid = some u := by
    cases hfu2 : findUser s.users sid
    · rw [hfu2] at hfu
      simp at hfu
    · exact ⟨_, rfl⟩
  obtain ⟨room, hroom⟩ : ∃ room, lookupA s.rooms roomId = some room := by
    cases hr2 : lookupA s.rooms roomId
    · rw [hr2] at hr
      simp at hr
    · exact ⟨_, rfl⟩
  unfold joinRoom
  rw [hu, hroom]
  dsimp only
  split
  · exact lookupA_setA_self _ _ _
  · exact lookupA_setA_self _ _ _

theorem joinRoom_userRooms_other (sid roomId c : String) (s : ServerState) (hc : c ≠ sid) :
    lookupA (joinRoom sid roomId s).userRooms c = lookupA s.userRooms c := by
  unfold joinRoom
  cases findUser s.users sid <;> cases lookupA s.rooms roomId <;> try rfl
  dsimp only
  split
  · rw [lookupA_setA_ne _ _ hc, leaveCurrent_userRooms]
  · rw [lookupA_setA_ne _ _ hc, leaveCurrent_userRooms]

theorem joinRoom_GP (sid roomId : String) (s : ServerState)
    (h : (lookupA s.rooms "general").isSome = true) :
    (lookupA (joinRoom sid roomId s).rooms "general").isSome = true := by
  unfold joinRoom
  cases findUser s.users sid <;> cases lookupA s.rooms roomId <;> try exact h
  dsimp only
  have hg := leaveCurrent_GP sid s h
  split
  · exact isSome_setA_general _ _ _ hg
  · exact hg

theorem joinRoom_MP (sid roomId : String) (s : ServerState) (hMP : MembershipPointer s) :
    MembershipPointer (joinRoom sid roomId s) := by
  unfold joinRoom
  cases hfu : findUser s.users sid with
  | none => exact hMP
  | some u =>
    cases hr : lookupA s.rooms roomId with
    | none => exact hMP
    | some room0 =>
      dsimp only
      have hMP1 : MembershipPointer (leaveCurrent sid s) := leaveCurrent_MP sid s hMP
      have hnomem := leaveCurrent_nomem sid s u hfu hMP
      split
      · rename_i r1 heq
        intro rp roomp hrp c hc
        by_cases hpr : rp = roomId
        · subst hpr
          rw [lookupA_setA_self] at hrp
          injection hrp with hrp
          subst hrp
          rcases mem_addElem hc with hcm | hcs
          · have hcsid : c ≠ sid := by
              intro hh
              subst hh
              exact hnomem rp r1 heq hcm
            rw [lookupA_setA_ne _ _ hcsid]
            exact hMP1 rp r1 heq c hcm
          · subst hcs
            exact lookupA_setA_self _ _ _
        · rw [lookupA_setA_ne _ _ hpr] at hrp
          by_cases hcs : c = sid
          · subst hcs
            exact absurd hc (hnomem rp roomp hrp)
          · rw [lookupA_setA_ne _ _ hcs]
            exact hMP1 rp roomp hrp c hc
      · intro rp roomp hrp c hc
        by_cases hcs : c = sid
        · subst hcs
          exact absurd hc (hnomem rp roomp hrp)
        · rw [lookupA_setA_ne _ _ hcs]
          exact hMP1 rp roomp hrp c hc

theorem Invariant_congr (s t : ServerState) (hU : t.users = s.users)
    (hUR : t.userRooms = s.userRooms) (hR : t.rooms = s.rooms)
    (h : Invariant s) : Invariant t := by
  refine ⟨?_, ?_, ?_⟩
  · rw [hR]
    exact h.1
  · intro u hu
    rw [hU] at hu
    rw [hUR]
    exact h.2.1 u hu
  · intro rp rm hrp c hc
    rw [hR] at hrp
    rw [hUR]
    exact h.2.2 rp rm hrp c hc

theorem chatMessage_frame (sid text : String) (mid : Nat) (s : ServerState) :
    (chatMessage sid text mid s).1.users = s.users ∧
    (chatMessage sid text mid s).1.userRooms = s.userRooms ∧
    (chatMessage sid text mid s).1.rooms = s.rooms := by
  unfold chatMessage
  cases findUser s.users sid
  · exact ⟨rfl, rfl, rfl⟩
  · dsimp only
    split
    · exact ⟨rfl, rfl, rfl⟩
    · split
      · exact ⟨rfl, rfl, rfl⟩
      · cases lookupA s.userRooms sid
        · exact ⟨rfl, rfl, rfl⟩
        · dsimp only
          split
          · exact ⟨rfl, rfl, rfl⟩
          · exact ⟨rfl, rfl, rfl⟩

theorem fileMessage_frame (sid f : String) (mid : Nat) (s : ServerState) :
    (fileMessage sid f mid s).users = s.users ∧
    (fileMessage sid f mid s).userRooms = s.userRooms ∧
    (fileMessage sid f mid s).rooms = s.rooms := by
  unfold fileMessage
  cases findUser s.users sid <;> cases lookupA s.userRooms sid <;> exact ⟨rfl, rfl, rfl⟩

theorem messageReaction_frame (sid : String) (mid : Nat) (e rid : String) (s : ServerState) :
    (messageReaction sid mid e rid s).users = s.users ∧
    (messageReaction sid mid e rid s).userRooms = s.userRooms ∧
    (messageReaction sid mid e rid s).rooms = s.rooms := by
  unfold messageReaction
  cases findUser s.users sid
  · exact ⟨rfl, rfl, rfl⟩
  · dsimp only
    cases lookupA s.messageHistory rid
    · exact ⟨rfl, rfl, rfl⟩
    · dsimp only
      split
      · exact ⟨rfl, rfl, rfl⟩
      · exact ⟨rfl, rfl, rfl⟩

theorem inv_leaveRoom (sid r : String) (s : ServerState) (h : Invariant s) :
    Invariant (leaveRoom sid r s) := by
  refine ⟨leaveRoom_GP sid r s h.1, ?_, leaveRoom_MP sid r s h.2.2⟩
  intro u hu
  rw [leaveRoom_users] at hu
  rw [leaveRoom_userRooms]
  exact h.2.1 u hu

theorem setA_MP_empty (s : ServerState) (k : String) (room : Room)
    (hempty : room.users = []) (h : MembershipPointer s) :
    MembershipPointer { s with rooms := setA s.rooms k room } := by
  intro rp rm hrp c hc
  by_cases hpr : rp = k
  · subst hpr
    rw [lookupA_setA_self] at hrp
    injection hrp with hrp
    subst hrp
    rw [hempty] at hc
    simp at hc
  · rw [lookupA_setA_ne _ _ hpr] at hrp
    exact h rp rm hrp c hc

theorem inv_step (e : Event) (s : ServerState) (h : Invariant s) : Invariant (step e s) := by
  cases e with
  | userJoin sid username =>
    show Invariant (userJoin sid username s).1
    unfold userJoin
    split
    · exact h
    · dsimp only
      refine ⟨joinRoom_GP _ _ _ h.1, ?_, joinRoom_MP _ _ _ h.2.2⟩
      intro u hu
      rw [joinRoom_users] at hu
      by_cases hus : u.id = sid
      · rw [hus, joinRoom_userRooms_self sid "general" _ ?_ ?_]
        · rfl
        · rw [findUser_setUser_self s.users { id := sid, username := jsSubstring (jsTrim username) 20 }]
          rfl
        · exact h.1
      · rw [joinRoom_userRooms_other sid "general" u.id _ hus]
        rcases mem_setUser hu with hu1 | hu1
        · exact absurd (by rw [hu1]) hus
        · exact h.2.1 u hu1
  | disconnect sid =>
    show Invariant (disconnect sid s)
    unfold disconnect
    cases hfu : findUser s.users sid with
    | none => exact h
    | some u =>
      dsimp only
      cases hptr : lookupA s.userRooms sid with
      | none =>
        dsimp only
        refine ⟨h.1, ?_, ?_⟩
        · intro v hv
          have hv2 := List.mem_filter.mp hv
          have hvne : v.id ≠ sid := by simpa using hv2.2
          rw [lookupA_eraseA_ne _ hvne]
          exact h.2.1 v hv2.1
        · intro rp roomp hrp c hc
          by_cases hcs : c = sid
          · rw [hcs] at hc
            exact absurd hc (nomem_of_no_pointer sid s h.2.2 hptr rp roomp hrp)
          · rw [lookupA_eraseA_ne _ hcs]
            exact h.2.2 rp roomp hrp c hc
      | some cur =>
        dsimp only
        refine ⟨leaveRoom_GP sid cur s h.1, ?_, ?_⟩
        · intro v hv
          rw [leaveRoom_users] at hv
          have hv2 := List.mem_filter.mp hv
          have hvne : v.id ≠ sid := by simpa using hv2.2
          rw [lookupA_eraseA_ne _ hvne, leaveRoom_userRooms]
          exact h.2.1 v hv2.1
        · intro rp roomp hrp c hc
          by_cases hcs : c = sid
          · rw [hcs] at hc
            exact absurd hc (nomem_after_leave sid cur s u hfu h.2.2 hptr rp roomp hrp)
          · rw [lookupA_eraseA_ne _ hcs]
            exact leaveRoom_MP sid cur s h.2.2 rp roomp hrp c hc
  | chatMessage sid text mid =>
    obtain ⟨h1, h2, h3⟩ := chatMessage_frame sid text mid s
    exact Invariant_congr s _ h1 h2 h3 h
  | privateMessage sid toUserId text mid => exact h
  | createRoom sid name rtype suf key =>
    show Invariant (createRoom sid name rtype suf key s).1
    unfold createRoom
    cases hfu : findUser s.users sid with
    | none => exact h
    | some u =>
      dsimp only
      split
      · exact h
      · dsimp only
        refine ⟨joinRoom_GP _ _ _ (isSome_setA_general _ _ _ h.1), ?_,
          joinRoom_MP _ _ _ (setA_MP_empty s _ _ rfl h.2.2)⟩
        intro v hv
        rw [joinRoom_users] at hv
        by_cases hvs : v.id = sid
        · rw [hvs, joinRoom_userRooms_self]
          · rfl
          · rw [show findUser ({ s with rooms := setA s.rooms (if (lookupA s.rooms (slugify (jsSubstring (jsTrim name) 20))).isSome = true then slugify (jsSubstring (jsTrim name) 20) ++ "-" ++ suf else slugify (jsSubstring (jsTrim name) 20)) { id := (if (lookupA s.rooms (slugify (jsSubstring (jsTrim name) 20))).isSome = true then slugify (jsSubstring (jsTrim name) 20) ++ "-" ++ suf else slugify (jsSubstring (jsTrim name) 20)), name := jsSubstring (jsTrim name) 20, rtype := (if (rtype == "") = true then "public" else rtype), key := (if ((if (rtype == "") = true then "public" else rtype) == "private") = true then some key else none), creator := u.username, users := [] } } : ServerState).users sid = some u from hfu]
            rfl
          · rw [lookupA_setA_self]
            rfl
        · rw [joinRoom_userRooms_other _ _ _ _ hvs]
          exact h.2.1 v hv
  | joinRoom sid roomId key =>
    show Invariant (joinRoomH sid roomId key s).1
    unfold joinRoomH
    cases hfu : findUser s.users sid with
    | none => exact h
    | some u =>
      dsimp only
      cases hr : lookupA s.rooms roomId with
      | none => exact h
      | some room =>
        dsimp only
        split
        · exact h
        · dsimp only
          refine ⟨joinRoom_GP _ _ _ h.1, ?_, joinRoom_MP _ _ _ h.2.2⟩
          intro v hv
          rw [joinRoom_users] at hv
          by_cases hvs : v.id = sid
          · rw [hvs, joinRoom_userRooms_self]
            · rfl
            · rw [hfu]
              rfl
            · rw [hr]
              rfl
          · rw [joinRoom_userRooms_other _ _ _ _ hvs]
            exact h.2.1 v hv
  | leaveRoom sid =>
    show Invariant (leaveRoomH sid s)
    unfold leaveRoomH
    cases hfu : findUser s.users sid with
    | none => exact h
    | some u =>
      dsimp only
      cases hptr : lookupA s.userRooms sid with
      | none => exact h
      | some cur =>
        dsimp only
        split
        · have hL : Invariant (leaveRoom sid cur s) := inv_leaveRoom sid cur s h
          refine ⟨joinRoom_GP _ _ _ hL.1, ?_, joinRoom_MP _ _ _ hL.2.2⟩
          intro v hv
          rw [joinRoom_users] at hv
          by_cases hvs : v.id = sid
          · rw [hvs, joinRoom_userRooms_self]
            · rfl
            · rw [show findUser (leaveRoom sid cur s).users sid = some u from by rw [leaveRoom_users]; exact hfu]
              rfl
            · exact hL.1
          · rw [joinRoom_userRooms_other _ _ _ _ hvs, leaveRoom_userRooms]
            rw [leaveRoom_users] at hv
            exact h.2.1 v hv
        · exact h
  | fileMessage sid f mid =>
    obtain ⟨h1, h2, h3⟩ := fileMessage_frame sid f mid s
    exact Invariant_congr s _ h1 h2 h3 h
  | messageReaction sid mid emoji roomId =>
    obtain ⟨h1, h2, h3⟩ := messageReaction_frame sid mid emoji roomId s
    exact Invariant_congr s _ h1 h2 h3 h

theorem invariant_initial : Invariant initialState := by
  refine ⟨by decide, ?_, ?_⟩
  · intro u hu
    simp [initialState] at hu
  · intro rp rm hrp c hc
    simp only [initialState, lookupA] at hrp
    split at hrp
    · injection hrp with hrp
      subst hrp
      simp [generalRoom] at hc
    · split at hrp
      · injection hrp with hrp
        subst hrp
        simp [randomRoom] at hc
      · exact Option.noConfusion hrp

theorem invariant_run_from : ∀ (es : List Event) (s : ServerState),
    Invariant s → Invariant (run es s)
  | [], _, h => h
  | e :: es, s, h => invariant_run_from es (step e s) (inv_step e s h)

theorem invariant_run (es : List Event) : Invariant (run es initialState) :=
  invariant_run_from es initialState invariant_initial

/-- C3 (amended): after any sequence of operations from process start — in
particular after every join and every leave — membership implies pointer: if a
registered room's member set contains a connection's identifier, that
connection's current-room pointer equals that room.  The claimed converse (the
full bijection) is false: a connection re-joining a non-default room of which
it is the sole member deletes the room while leaving the pointer dangling, and
a later create-room call can re-register the same id, after which the pointer
names a room whose member set does not contain the connection (see the
counterexample). -/
theorem c3_membership_implies_pointer (es : List Event) (r : String) (room : Room) (c : String)
    (hr : lookupA (run es initialState).rooms r = some room) (hc : c ∈ room.users) :
    lookupA (run es initialState).userRooms c = some r :=
  (invariant_run es).2.2 r room hr c hc

/-- C3 counterexample: alice creates room `x`, re-joins it (the sole-member
re-join deletes `x` from the registry but leaves her pointer on "x"), then bob
creates a room named `x` — the slug is free again, so the new room gets id
`x`.  Now alice's current-room pointer equals room `x` while `x`'s member set
is `["B"]` only: the claimed bijection is violated. -/
theorem c3_bijection_counterexample :
    lookupA (run [Event.userJoin "A" "alice",
      Event.createRoom "A" "x" "public" "S1" "K1",
      Event.joinRoom "A" "x" none,
      Event.userJoin "B" "bob",
      Event.createRoom "B" "x" "public" "S2" "K2"] initialState).userRooms "A" = some "x" ∧
    (∃ room, lookupA (run [Event.userJoin "A" "alice",
      Event.createRoom "A" "x" "public" "S1" "K1",
      Event.joinRoom "A" "x" none,
      Event.userJoin "B" "bob",
      Event.createRoom "B" "x" "public" "S2" "K2"] initialState).rooms "x" = some room ∧
      "A" ∉ room.users) := by
  refine ⟨by decide,
    ⟨{ id := "x", name := "x", rtype := "public", key := none, creator := "bob",
       users := ["B"] }, by decide, by decide⟩⟩

theorem c3_witness :
    lookupA (run [Event.userJoin "A" "alice"] initialState).userRooms "A" = some "general" :=
  c3_membership_implies_pointer [Event.userJoin "A" "alice"] "general"
    { id := "general", name := "General Chat", rtype := "public", key := none,
      creator := "System", users := ["A"] } "A" (by rfl) (by decide)

/-- C10: every identified connection always has a current-room pointer; the
leave-room command is a no-op when the current room is `general`, and
otherwise moves the connection out of its current room and into `general`
(so it is never left roomless); successful identification itself points the
connection at `general`. -/
theorem c10_identified_never_roomless (es : List Event) :
    (∀ u ∈ (run es initialState).users,
       (lookupA (run es initialState).userRooms u.id).isSome = true) ∧
    (∀ sid u, findUser (run es initialState).users sid = some u →
      ((lookupA (run es initialState).userRooms sid = some "general" →
         leaveRoomH sid (run es initialState) = run es initialState) ∧
       (∀ r, lookupA (run es initialState).userRooms sid = some r → r ≠ "general" →
         lookupA (leaveRoomH sid (run es initialState)).userRooms sid = some "general" ∧
         (∃ room, lookupA (leaveRoomH sid (run es initialState)).rooms "general" = some room ∧
            sid ∈ room.users) ∧
         (∀ room2, lookupA (leaveRoomH sid (run es initialState)).rooms r = some room2 →
            sid ∉ room2.users)))) ∧
    (∀ sid username, (userJoin sid username (run es initialState)).2 = none →
       lookupA (userJoin sid username (run es initialState)).1.userRooms sid = some "general") := by
  have hInv := invariant_run es
  refine ⟨hInv.2.1, ?_, ?_⟩
  · intro sid u hfu
    constructor
    · intro hg
      unfold leaveRoomH
      rw [hfu]
      dsimp only
      rw [hg]
      dsimp only
      rw [if_neg (by decide)]
    · intro r hr hrg
      have hbne : (r != "general") = true := by simpa using hrg
      have hLH : leaveRoomH sid (run es initialState) =
          joinRoom sid "general" (leaveRoom sid r (run es initialState)) := by
        unfold leaveRoomH
        rw [hfu]
        dsimp only
        rw [hr]
        dsimp only
        rw [if_pos hbne]
      have hL : Invariant (leaveRoom sid r (run es initialState)) :=
        inv_leaveRoom sid r _ hInv
      have hfuL : findUser (leaveRoom sid r (run es initialState)).users sid = some u := by
        rw [leaveRoom_users]
        exact hfu
      have hg2 : lookupA (leaveRoomH sid (run es initialState)).userRooms sid =
          some "general" := by
        rw [hLH]
        exact joinRoom_userRooms_self sid "general" _ (by rw [hfuL]; rfl) hL.1
      refine ⟨hg2, ?_, ?_⟩
      · obtain ⟨roomG, hG⟩ : ∃ roomG,
            lookupA (leaveRoom sid r (run es initialState)).rooms "general" = some roomG := by
          cases hx : lookupA (leaveRoom sid r (run es initialState)).rooms "general"
          · have h1 := hL.1
            rw [hx] at h1
            simp at h1
          · exact ⟨_, rfl⟩
        have hnod : lookupA (leaveRoom sid r (run es initialState)).userRooms sid ≠
            some "general" := by
          rw [leaveRoom_userRooms, hr]
          intro hh
          injection hh with hh
          exact hrg hh
        refine ⟨{ roomG with users := addElem roomG.users sid }, ?_, self_mem_addElem _ _⟩
        rw [hLH]
        exact joinRoom_rooms_target sid "general" _ u roomG hfuL hG hnod
      · intro room2 h2 hmem
        have hInvPost : Invariant (leaveRoomH sid (run es initialState)) :=
          inv_step (Event.leaveRoom sid) (run es initialState) hInv
        have hp := hInvPost.2.2 r room2 h2 sid hmem
        rw [hg2] at hp
        injection hp with hp
        exact hrg hp.symm
  · intro sid username hok
    unfold userJoin at hok ⊢
    by_cases hcond : (username == "" || (jsTrim username).length == 0) = true
    · rw [if_pos hcond] at hok
      simp at hok
    · rw [if_neg hcond]
      dsimp only
      refine joinRoom_userRooms_self sid "general" _ ?_ hInv.1
      rw [findUser_setUser_self (run es initialState).users
        { id := sid, username := jsSubstring (jsTrim username) 20 }]
      rfl

theorem c10_witness :
    lookupA (leaveRoomH "A" (run [Event.userJoin "A" "alice",
        Event.createRoom "A" "y" "public" "S" "K"] initialState)).userRooms "A" =
      some "general" :=
  (((c10_identified_never_roomless [Event.userJoin "A" "alice",
      Event.createRoom "A" "y" "public" "S" "K"]).2.1 "A"
      { id := "A", username := "alice" } (by rfl)).2 "y" (by rfl) (by decide)).1
